import Mathlib

/-!
Verification of the adaptive listing extractor
(`scrapers/unified_broker_scraper_v2.py`) against its specification.

Python strings are embedded as `List Char`; machine floats arising from
exact decimal arithmetic are embedded as `ℚ`; fallible operations return
`Option`; calls into external collaborators (the DOM library, the browser,
the persistence client, `hashlib`) are embedded as explicit record fields,
function parameters, or `Except` results, as noted at each definition.
-/

abbrev Str := List Char

/-- Coerce a Lean string literal to the `List Char` embedding. -/
def str (s : String) : Str := s.data

/-- Python `str.lower()` (ASCII range, which is all the source uses). -/
def lowerStr (s : Str) : Str := s.map Char.toLower

/-- Python regex `\s` / `str.isspace` on the ASCII range. -/
def pySpace (c : Char) : Bool :=
  c = ' ' || c = '\t' || c = '\n' || c = '\r' || c = Char.ofNat 11 || c = Char.ofNat 12

/-- List prefix test (executable). -/
def isPrefixL : Str → Str → Bool
  | [], _ => true
  | _ :: _, [] => false
  | a :: as, b :: bs => a = b && isPrefixL as bs

/-- Substring test: Python `pat in s`. -/
def isSubstr (pat : Str) : Str → Bool
  | [] => isPrefixL pat []
  | s@(_ :: rest) => isPrefixL pat s || isSubstr pat rest

/-- Python `a in b` for strings (substring containment of `pat` in `s`). -/
def strContains (s pat : Str) : Bool := isSubstr pat s

/-- Python truthiness-based `x or default` on an optional string:
`None` and `''` both fall through to the default. -/
def pyOrStr (o : Option Str) (d : Str) : Str :=
  match o with
  | none => d
  | some s => if s = [] then d else s

/-- `str.strip()`: remove leading and trailing whitespace. -/
def pyStrip (s : Str) : Str :=
  (s.dropWhile pySpace).reverse.dropWhile pySpace |>.reverse

/-- Numeric value of a run of ASCII digits. -/
def digitsVal (l : Str) : Nat :=
  l.foldl (fun acc c => 10 * acc + (c.toNat - 48)) 0

/-- Decimal digits of a natural number (for f-string interpolation). -/
def natToStr (n : Nat) : Str := Nat.toDigits 10 n

def intToStr (i : Int) : Str :=
  if i < 0 then '-' :: natToStr i.natAbs else natToStr i.natAbs

/-- Split a (sign-stripped) float literal into integer digits, fractional
digits and the remaining tail. -/
def mantissaParts (t1 : Str) : Str × Str × Str :=
  let ip := t1.takeWhile Char.isDigit
  let r1 := t1.dropWhile Char.isDigit
  if r1.head? = some '.' then
    (ip, r1.tail.takeWhile Char.isDigit, r1.tail.dropWhile Char.isDigit)
  else (ip, [], r1)

/-- Drop a leading `+`/`-` sign from a float literal. -/
def stripSign (t : Str) : Str :=
  if t.head? = some '+' ∨ t.head? = some '-' then t.tail else t

/-- Sign factor of a float literal. -/
def signOf (t : Str) : ℚ :=
  if t.head? = some '-' then -1 else 1

/-- Parse the optional exponent suffix of a float literal into a multiplier. -/
def expFactor (rest : Str) : Option ℚ :=
  match rest with
  | [] => some 1
  | e :: r =>
    if e = 'e' ∨ e = 'E' then
      let esgn : Bool := r.head? = some '-'
      let r2 := stripSign r
      let eDigits := r2.takeWhile Char.isDigit
      let rest2 := r2.dropWhile Char.isDigit
      if eDigits = [] ∨ rest2 ≠ [] then none
      else
        let ev : ℚ := (10 : ℚ) ^ (digitsVal eDigits)
        some (if esgn then 1 / ev else ev)
    else none

/-- Model of CPython `float(s)` restricted to finite decimal literals:
optional surrounding whitespace, optional sign, digits with an optional
fractional part, and an optional decimal exponent.  `inf`/`nan` literals and
digit-group underscores are not modelled; every theorem below stays away
from those inputs.  Returns the exact decimal value. -/
def pyFloat (s : Str) : Option ℚ :=
  let t := pyStrip s
  let mp := mantissaParts (stripSign t)
  if mp.1 = [] ∧ mp.2.1 = [] then none
  else
    match expFactor mp.2.2 with
    | none => none
    | some f =>
      some (signOf t * ((digitsVal mp.1 : ℚ) + (digitsVal mp.2.1 : ℚ) / (10 : ℚ) ^ mp.2.1.length) * f)

/-- `re.sub(r'[$,]', '', text)`: remove every dollar sign and comma. -/
def pyCleanMoney (text : Str) : Str := text.filter (fun c => c ≠ '$' ∧ c ≠ ',')

/-- `parse_money_value` (unified_broker_scraper_v2.py:103).
The `k`/`m` branches lower-case first, strip the suffix letter everywhere,
and multiply; any conversion failure is swallowed by the bare `except` and
yields `None`. -/
def parse_money_value (text : Str) : Option ℚ :=
  if text = [] then none
  else if (lowerStr (pyCleanMoney text)).contains 'k' then
    (pyFloat ((lowerStr (pyCleanMoney text)).filter (fun c => c ≠ 'k'))).map (· * 1000)
  else if (lowerStr (pyCleanMoney text)).contains 'm' then
    (pyFloat ((lowerStr (pyCleanMoney text)).filter (fun c => c ≠ 'm'))).map (· * 1000000)
  else
    pyFloat (pyCleanMoney text)

/-- `parse_money_value` applied to an optional value (callers pass
`None` through; `if not text` catches it). -/
def parseMoneyOpt (o : Option Str) : Option ℚ :=
  match o with
  | none => none
  | some s => parse_money_value s

lemma takeWhile_nil_of_all_false {p : Char → Bool} {l : Str}
    (h : ∀ c ∈ l, p c = false) : l.takeWhile p = [] := by
  cases l with
  | nil => rfl
  | cons a t => simp [List.takeWhile_cons, h a (List.mem_cons_self a t)]

lemma mantissaParts_no_digit {t1 : Str} (h : ∀ c ∈ t1, c.isDigit = false) :
    (mantissaParts t1).1 = [] ∧ (mantissaParts t1).2.1 = [] := by
  have hd : t1.dropWhile Char.isDigit = t1 := by
    cases t1 with
    | nil => rfl
    | cons a r => simp [List.dropWhile_cons, h a (List.mem_cons_self a r)]
  have ht : t1.takeWhile Char.isDigit = [] := takeWhile_nil_of_all_false h
  simp only [mantissaParts, hd, ht]
  by_cases hdot : t1.head? = some '.'
  · rw [if_pos hdot]
    refine ⟨rfl, takeWhile_nil_of_all_false ?_⟩
    intro c hc
    exact h c ((List.tail_sublist t1).mem hc)
  · rw [if_neg hdot]
    exact ⟨rfl, rfl⟩

lemma pyStrip_subset {s : Str} : ∀ c ∈ pyStrip s, c ∈ s := by
  intro c hc
  unfold pyStrip at hc
  rw [List.mem_reverse] at hc
  have h1 := (List.dropWhile_sublist pySpace).mem hc
  rw [List.mem_reverse] at h1
  exact (List.dropWhile_sublist pySpace).mem h1

lemma stripSign_subset {t : Str} : ∀ c ∈ stripSign t, c ∈ t := by
  intro c hc
  unfold stripSign at hc
  by_cases hsgn : t.head? = some '+' ∨ t.head? = some '-'
  · rw [if_pos hsgn] at hc
    exact (List.tail_sublist t).mem hc
  · rw [if_neg hsgn] at hc
    exact hc

lemma pyFloat_no_digit {s : Str} (h : ∀ c ∈ s, c.isDigit = false) :
    pyFloat s = none := by
  have hT : ∀ x ∈ stripSign (pyStrip s), x.isDigit = false :=
    fun x hx => h x (pyStrip_subset x (stripSign_subset x hx))
  obtain ⟨h1, h2⟩ := mantissaParts_no_digit hT
  simp [pyFloat, h1, h2]

/-- The alphabet used to formalise "garbage" input: ASCII characters that can
occur in scraped noise but contain no digit and cannot begin an `inf`/`nan`
float literal, so CPython's `float()` necessarily fails on any string drawn
from it. -/
def garbageChars : Str :=
  str "abcdefghjklmopqrstuvwxyzABCDEFGHJKLMOPQRSTUVWXYZ !?#@%^&*()-_=+;:~.,$"

lemma garbage_no_digit : ∀ c ∈ garbageChars, c.isDigit = false := by decide

lemma garbage_toLower_no_digit : ∀ c ∈ garbageChars, (Char.toLower c).isDigit = false := by
  decide

/-- C7: the money parser maps the three documented inputs to 12345, 45000 and
1200000; the empty string yields `none`; and every "garbage" input — any
string over `garbageChars` (digit-free ASCII noise) — yields `none` rather
than raising. -/
theorem money_parsing :
    parse_money_value (str "$12,345") = some 12345 ∧
    parse_money_value (str "45k") = some 45000 ∧
    parse_money_value (str "1.2m") = some 1200000 ∧
    parse_money_value (str "") = none ∧
    ∀ s : Str, (∀ c ∈ s, c ∈ garbageChars) → parse_money_value s = none := by
  refine ⟨?_, ?_, ?_, by decide, ?_⟩
  · simp +decide [parse_money_value, pyFloat, mantissaParts, expFactor, stripSign, signOf,
      pyCleanMoney, lowerStr, digitsVal, pySpace, pyStrip, str]
  · simp +decide [parse_money_value, pyFloat, mantissaParts, expFactor, stripSign, signOf,
      pyCleanMoney, lowerStr, digitsVal, pySpace, pyStrip, str]
    norm_num
  · simp +decide [parse_money_value, pyFloat, mantissaParts, expFactor, stripSign, signOf,
      pyCleanMoney, lowerStr, digitsVal, pySpace, pyStrip, str]
    norm_num
  · intro s hg
    have hclean : ∀ c ∈ pyCleanMoney s, c.isDigit = false :=
      fun c hc => garbage_no_digit c (hg c (List.mem_of_mem_filter hc))
    have hlow : ∀ (f : Char → Bool) (c : Char),
        c ∈ (lowerStr (pyCleanMoney s)).filter f → c.isDigit = false := by
      intro f c hc
      have hc2 := List.mem_of_mem_filter hc
      rw [lowerStr, List.mem_map] at hc2
      obtain ⟨a, ha, rfl⟩ := hc2
      exact garbage_toLower_no_digit a (hg a (List.mem_of_mem_filter ha))
    unfold parse_money_value
    by_cases hs : s = []
    · simp [hs]
    · rw [if_neg hs]
      by_cases hk : (lowerStr (pyCleanMoney s)).contains 'k' = true
      · have hknone : pyFloat ((lowerStr (pyCleanMoney s)).filter (fun c => c ≠ 'k')) = none :=
          pyFloat_no_digit (fun c hc => hlow _ c hc)
        rw [if_pos hk, hknone]
        rfl
      · rw [if_neg hk]
        by_cases hm : (lowerStr (pyCleanMoney s)).contains 'm' = true
        · have hmnone : pyFloat ((lowerStr (pyCleanMoney s)).filter (fun c => c ≠ 'm')) = none :=
            pyFloat_no_digit (fun c hc => hlow _ c hc)
          rw [if_pos hm, hmnone]
          rfl
        · rw [if_neg hm]
          exact pyFloat_no_digit hclean

/-- Witness for C7's universally quantified garbage clause. -/
theorem money_parsing_witness : parse_money_value (str "garbage!?") = none :=
  money_parsing.2.2.2.2 (str "garbage!?") (by decide)

/-! ## Vertical keyword filtering (`VERTICAL_CONFIGS`, `matches_vertical`) -/

structure VerticalConfig where
  name : Str
  include_keywords : List Str
  exclude_keywords : List Str

/-- `VERTICAL_CONFIGS['cleaning']` (unified_broker_scraper_v2.py:29). -/
def cleaningConfig : VerticalConfig :=
  { name := str "Cleaning Services"
    include_keywords := [str "cleaning", str "janitorial", str "custodial", str "sanitation",
      str "maintenance", str "maid service", str "housekeeping", str "carpet cleaning",
      str "window cleaning", str "pressure washing", str "commercial cleaning",
      str "residential cleaning", str "floor care", str "disinfection", str "restoration"]
    exclude_keywords := [str "restaurant", str "food service", str "hvac", str "plumbing",
      str "electrical", str "landscaping", str "lawn care", str "pool", str "spa", str "salon"] }

/-- `VERTICAL_CONFIGS['landscape']` (unified_broker_scraper_v2.py:42). -/
def landscapeConfig : VerticalConfig :=
  { name := str "Landscape Services"
    include_keywords := [str "landscape", str "landscaping", str "lawn care",
      str "lawn maintenance", str "irrigation", str "hardscape", str "tree service",
      str "snow removal", str "lawn mowing", str "garden", str "turf care",
      str "lawn treatment", str "landscape design", str "outdoor living"]
    exclude_keywords := [str "restaurant", str "food service", str "hvac", str "plumbing",
      str "electrical", str "cleaning", str "janitorial", str "pool", str "spa"] }

/-- `VERTICAL_CONFIGS['hvac']` (unified_broker_scraper_v2.py:55). -/
def hvacConfig : VerticalConfig :=
  { name := str "HVAC Services"
    include_keywords := [str "hvac", str "heating", str "cooling", str "air conditioning",
      str "furnace", str "ventilation", str "refrigeration", str "climate control",
      str "ductwork", str "heat pump", str "ac repair", str "hvac contractor",
      str "hvac service"]
    exclude_keywords := [str "restaurant", str "food service", str "cleaning",
      str "janitorial", str "landscaping", str "lawn care", str "pool", str "spa",
      str "plumbing", str "electrical"] }

/-- A scraped-listing dictionary.  Each field models one key of the Python
dict; `none` models an absent key (`dict.get` returning `None`). -/
structure ListingDict where
  title : Option Str := none
  url : Option Str := none
  listing_url : Option Str := none
  price : Option ℚ := none
  price_text : Option Str := none
  location : Option Str := none
  city : Option Str := none
  state : Option Str := none
  business_type : Option Str := none
  revenue : Option ℚ := none
  cash_flow : Option ℚ := none
  text : Option Str := none
  full_text : Option Str := none
  description : Option Str := none
  image_url : Option Str := none
  deriving DecidableEq

instance : Inhabited ListingDict := ⟨{}⟩

/-- The lower-cased searchable text `f"{title} {description} {business_type}"`
built by `matches_vertical` (unified_broker_scraper_v2.py:582-585). -/
def search_text_of (listing : ListingDict) : Str :=
  lowerStr (pyOrStr listing.title []) ++ [' '] ++
    lowerStr (pyOrStr listing.description
      (pyOrStr listing.text (pyOrStr listing.full_text []))) ++ [' '] ++
    lowerStr (pyOrStr listing.business_type [])

/-- `SelfLearningScraper.matches_vertical` (unified_broker_scraper_v2.py:579).
The exclude loop returns `False` on its first hit; otherwise the include
loop returns `True` on its first hit; otherwise `False`. -/
def matches_vertical (cfg : VerticalConfig) (listing : ListingDict) : Bool :=
  let search_text := search_text_of listing
  if cfg.exclude_keywords.any (fun kw => isSubstr (lowerStr kw) search_text) then false
  else cfg.include_keywords.any (fun kw => isSubstr (lowerStr kw) search_text)

/-- C10: exclusion dominates inclusion in the vertical filter: any exclude
keyword occurring (case-insensitively) in the listing's searchable text
forces rejection even when include keywords also occur; and a listing is
accepted iff no exclude keyword occurs and some include keyword occurs. -/
theorem vertical_filter_exclusion_dominates (cfg : VerticalConfig) (l : ListingDict) :
    (matches_vertical cfg l = true ↔
      ((∀ kw ∈ cfg.exclude_keywords, isSubstr (lowerStr kw) (search_text_of l) = false) ∧
       (∃ kw ∈ cfg.include_keywords, isSubstr (lowerStr kw) (search_text_of l) = true))) ∧
    (∀ kw ∈ cfg.exclude_keywords, isSubstr (lowerStr kw) (search_text_of l) = true →
      matches_vertical cfg l = false) := by
  unfold matches_vertical
  by_cases hex : cfg.exclude_keywords.any
      (fun kw => isSubstr (lowerStr kw) (search_text_of l)) = true
  · rw [List.any_eq_true] at hex
    obtain ⟨kw0, hkw0, hsub0⟩ := hex
    constructor
    · rw [if_pos (List.any_eq_true.mpr ⟨kw0, hkw0, hsub0⟩)]
      constructor
      · intro h
        exact absurd h (by simp)
      · rintro ⟨hall, -⟩
        exact absurd (hall kw0 hkw0) (by simp [hsub0])
    · intro kw hkw hsub
      rw [if_pos (List.any_eq_true.mpr ⟨kw, hkw, hsub⟩)]
  · constructor
    · rw [if_neg hex, List.any_eq_true]
      constructor
      · rintro ⟨kw, hkw, hsub⟩
        refine ⟨fun kw2 hkw2 => ?_, ⟨kw, hkw, hsub⟩⟩
        by_contra hne
        exact hex (List.any_eq_true.mpr ⟨kw2, hkw2, by simpa using hne⟩)
      · rintro ⟨-, kw, hkw, hsub⟩
        exact ⟨kw, hkw, hsub⟩
    · intro kw hkw hsub
      exact absurd (List.any_eq_true.mpr ⟨kw, hkw, hsub⟩) hex

/-- Witness for C10 at a concrete listing: a cleaning listing whose text also
mentions a restaurant is rejected despite the include keyword matching. -/
theorem vertical_filter_exclusion_dominates_witness :
    matches_vertical cleaningConfig
      { title := some (str "Office Cleaning Co"),
        text := some (str "cleaning business next to a restaurant") } = false :=
  (vertical_filter_exclusion_dominates cleaningConfig _).2
    (str "restaurant") (by decide) (by decide)

/-! ## Failure classification (`FailureAnalyzer.classify_failure`) -/

/-- Python truthiness of an optional HTML string: `None` and `''` are falsy. -/
def htmlTruthy (html : Option Str) : Bool :=
  match html with
  | some h => h ≠ []
  | none => false

/-- `http_status and http_status >= 500` (truthiness of the int, then the
comparison). -/
def statusTruthyGE500 (s : Option Int) : Bool :=
  match s with
  | some n => decide (n ≠ 0) && decide (500 ≤ n)
  | none => false

/-- `FailureAnalyzer.classify_failure` (unified_broker_scraper_v2.py:274).
`error_lower`/`html_lower` are the lower-cased inputs; the chain of `if`s is
translated in source order.  In the `HTTP_500` arm the source interpolates
the status into the message; `Option.getD` recovers the integer, which in
that arm is the status itself. -/
def classify_failure (error : Str) (http_status : Option Int) (html : Option Str) : Str × Str :=
  let error_lower := lowerStr error
  let html_lower := lowerStr (html.getD [])
  if http_status = some 403 then
    (str "HTTP_403", str "Site blocking (403) - anti-bot protection")
  else if http_status = some 404 then
    (str "HTTP_404", str "Page not found (404) - URL may be outdated")
  else if statusTruthyGE500 http_status then
    (str "HTTP_500", str "Server error (" ++ intToStr ((http_status).getD 0) ++ str ")")
  else if isSubstr (str "timeout") error_lower || isSubstr (str "timed out") error_lower then
    (str "TIMEOUT", str "Connection timeout")
  else if isSubstr (str "ssl") error_lower || isSubstr (str "certificate") error_lower then
    (str "SSL_ERROR", str "SSL certificate error")
  else if htmlTruthy html &&
      (isSubstr (str "recaptcha") html_lower || isSubstr (str "captcha") html_lower) then
    (str "CAPTCHA", str "CAPTCHA protection detected")
  else if isSubstr (str "no pattern") error_lower ||
      isSubstr (str "no business listings") error_lower then
    (str "NO_PATTERN", str "Could not detect listing pattern")
  else if htmlTruthy html && decide ((html.getD []).length < 10000) then
    (str "JAVASCRIPT_HEAVY", str "Minimal content - JavaScript-heavy")
  else
    (str "UNKNOWN", str "Unknown: " ++ error.take 200)

/-- C6 counterexample: an empty fetched page body is smaller than 10 KB, yet
the classifier returns `UNKNOWN`, not `JAVASCRIPT_HEAVY` — the code requires
a *truthy* (non-empty) body before the size check. -/
theorem classify_failure_empty_body_counterexample :
    (str "").length < 10000 ∧
    classify_failure (str "boom") none (some (str "")) =
      (str "UNKNOWN", str "Unknown: boom") := by decide

/-- C6 (amended): the classifier's rules apply in fixed precedence order —
HTTP status (403, then 404, then a truthy status ≥ 500), then the
timeout / SSL error-text checks, then the CAPTCHA page-content check, then
`NO_PATTERN`, then `JAVASCRIPT_HEAVY` for a *non-empty* page body under
10000 bytes, and otherwise `UNKNOWN` with the error text truncated to 200
characters. -/
theorem classify_failure_decision_order (e : Str) (s : Option Int) (h : Option Str) :
    (s = some 403 →
      classify_failure e s h = (str "HTTP_403", str "Site blocking (403) - anti-bot protection")) ∧
    (s ≠ some 403 → s = some 404 →
      classify_failure e s h = (str "HTTP_404", str "Page not found (404) - URL may be outdated")) ∧
    (∀ n : Int, s = some n → n ≠ 403 → n ≠ 404 → n ≠ 0 → 500 ≤ n →
      classify_failure e s h = (str "HTTP_500", str "Server error (" ++ intToStr n ++ str ")")) ∧
    (s ≠ some 403 → s ≠ some 404 → statusTruthyGE500 s = false →
      (isSubstr (str "timeout") (lowerStr e) || isSubstr (str "timed out") (lowerStr e)) = true →
      classify_failure e s h = (str "TIMEOUT", str "Connection timeout")) ∧
    (s ≠ some 403 → s ≠ some 404 → statusTruthyGE500 s = false →
      (isSubstr (str "timeout") (lowerStr e) || isSubstr (str "timed out") (lowerStr e)) = false →
      (isSubstr (str "ssl") (lowerStr e) || isSubstr (str "certificate") (lowerStr e)) = true →
      classify_failure e s h = (str "SSL_ERROR", str "SSL certificate error")) ∧
    (s ≠ some 403 → s ≠ some 404 → statusTruthyGE500 s = false →
      (isSubstr (str "timeout") (lowerStr e) || isSubstr (str "timed out") (lowerStr e)) = false →
      (isSubstr (str "ssl") (lowerStr e) || isSubstr (str "certificate") (lowerStr e)) = false →
      (htmlTruthy h && (isSubstr (str "recaptcha") (lowerStr (h.getD [])) ||
        isSubstr (str "captcha") (lowerStr (h.getD [])))) = true →
      classify_failure e s h = (str "CAPTCHA", str "CAPTCHA protection detected")) ∧
    (s ≠ some 403 → s ≠ some 404 → statusTruthyGE500 s = false →
      (isSubstr (str "timeout") (lowerStr e) || isSubstr (str "timed out") (lowerStr e)) = false →
      (isSubstr (str "ssl") (lowerStr e) || isSubstr (str "certificate") (lowerStr e)) = false →
      (htmlTruthy h && (isSubstr (str "recaptcha") (lowerStr (h.getD [])) ||
        isSubstr (str "captcha") (lowerStr (h.getD [])))) = false →
      (isSubstr (str "no pattern") (lowerStr e) ||
        isSubstr (str "no business listings") (lowerStr e)) = true →
      classify_failure e s h = (str "NO_PATTERN", str "Could not detect listing pattern")) ∧
    (s ≠ some 403 → s ≠ some 404 → statusTruthyGE500 s = false →
      (isSubstr (str "timeout") (lowerStr e) || isSubstr (str "timed out") (lowerStr e)) = false →
      (isSubstr (str "ssl") (lowerStr e) || isSubstr (str "certificate") (lowerStr e)) = false →
      (htmlTruthy h && (isSubstr (str "recaptcha") (lowerStr (h.getD [])) ||
        isSubstr (str "captcha") (lowerStr (h.getD [])))) = false →
      (isSubstr (str "no pattern") (lowerStr e) ||
        isSubstr (str "no business listings") (lowerStr e)) = false →
      (htmlTruthy h && decide ((h.getD []).length < 10000)) = true →
      classify_failure e s h = (str "JAVASCRIPT_HEAVY", str "Minimal content - JavaScript-heavy")) ∧
    (s ≠ some 403 → s ≠ some 404 → statusTruthyGE500 s = false →
      (isSubstr (str "timeout") (lowerStr e) || isSubstr (str "timed out") (lowerStr e)) = false →
      (isSubstr (str "ssl") (lowerStr e) || isSubstr (str "certificate") (lowerStr e)) = false →
      (htmlTruthy h && (isSubstr (str "recaptcha") (lowerStr (h.getD [])) ||
        isSubstr (str "captcha") (lowerStr (h.getD [])))) = false →
      (isSubstr (str "no pattern") (lowerStr e) ||
        isSubstr (str "no business listings") (lowerStr e)) = false →
      (htmlTruthy h && decide ((h.getD []).length < 10000)) = false →
      classify_failure e s h = (str "UNKNOWN", str "Unknown: " ++ e.take 200)) := by
  refine ⟨?_, ?_, ?_, ?_, ?_, ?_, ?_, ?_, ?_⟩
  · rintro rfl
    simp [classify_failure]
  · intro h403 h404
    subst h404
    simp [classify_failure, h403]
  · rintro n rfl h403 h404 hn0 h500
    have e403 : ¬ (some n = some (403 : Int)) := by simpa using h403
    have e404 : ¬ (some n = some (404 : Int)) := by simpa using h404
    simp [classify_failure, e403, e404, statusTruthyGE500, hn0, h500]
  · intro h403 h404 h500 htime
    simp [classify_failure, h403, h404, h500, htime]
  · intro h403 h404 h500 htime hssl
    simp [classify_failure, h403, h404, h500, htime, hssl]
  · intro h403 h404 h500 htime hssl hcap
    simp [classify_failure, h403, h404, h500, htime, hssl, hcap]
  · intro h403 h404 h500 htime hssl hcap hnp
    simp [classify_failure, h403, h404, h500, htime, hssl, hcap, hnp]
  · intro h403 h404 h500 htime hssl hcap hnp hjs
    simp [classify_failure, h403, h404, h500, htime, hssl, hcap, hnp, hjs]
  · intro h403 h404 h500 htime hssl hcap hnp hjs
    simp [classify_failure, h403, h404, h500, htime, hssl, hcap, hnp, hjs]

/-- Witness for C6: the 403 rule fires regardless of error text and body. -/
theorem classify_failure_decision_order_witness :
    classify_failure (str "timeout while fetching") (some 403) (some (str "tiny")) =
      (str "HTTP_403", str "Site blocking (403) - anti-bot protection") :=
  (classify_failure_decision_order (str "timeout while fetching") (some 403)
    (some (str "tiny"))).1 rfl

/-! ## DOM element model, signature builder (`PatternDetector._get_signature`) -/

/-- Observations of one BeautifulSoup element node.  Each field embeds one
DOM-library query the scraper performs on an element:
`name`; `[c.name for c in find_all(recursive=False)]`;
`len(list(parents))`; `find('img') is not None`;
the `href` of `find('a', href=True)`; the `href` of
`find_parent('a', href=True)`; `get_text(strip=True)`;
`get_text(' ', strip=True)`; `get_text()`; for each tag, the stripped text
of `find(tag)` (an association list, `none` when absent); and the stripped
text of `find('a')`. -/
structure Element where
  name : Str := []
  childNames : List Str := []
  depth : Nat := 0
  hasImg : Bool := false
  innerLink : Option Str := none
  parentLink : Option Str := none
  textStrip : Str := []
  textSpace : Str := []
  textFull : Str := []
  findTagText : List (Str × Str) := []
  linkText : Option Str := none
  deriving DecidableEq

instance : Inhabited Element := ⟨{}⟩

/-- Strict lexicographic (code-point) comparison, Python's `<` on strings. -/
def strLt : Str → Str → Bool
  | [], [] => false
  | [], _ :: _ => true
  | _ :: _, [] => false
  | a :: as, b :: bs => if a = b then strLt as bs else decide (a < b)

/-- Insert into a strictly sorted list, skipping duplicates. -/
def insertUniq (x : Str) : List Str → List Str
  | [] => [x]
  | y :: ys => if x = y then y :: ys else if strLt x y then x :: y :: ys else y :: insertUniq x ys

/-- Python `sorted(set(l))`: the strictly sorted list of distinct values. -/
def sortedDedup (l : List Str) : List Str := l.foldr insertUniq []

/-- Regex search for `\$[\d,]+`: a dollar sign immediately followed by at
least one digit or comma. -/
def hasPriceRe : Str → Bool
  | [] => false
  | '$' :: c :: rest => (c.isDigit || c = ',') || hasPriceRe (c :: rest)
  | _ :: rest => hasPriceRe rest

/-- The coarse text-length bucket of the signature: 2 for `text:long`
(> 200), 1 for `text:medium` (> 50), 0 for no marker. -/
def textBucket (n : Nat) : Nat :=
  if 200 < n then 2 else if 50 < n then 1 else 0

/-- The six structural axes the signature is built from: tag name, sorted
de-duplicated direct-child tag set, hyperlink presence, image presence,
text-length bucket, and currency-amount presence. -/
def sigAxes (e : Element) : Str × List Str × Bool × Bool × Nat × Bool :=
  (e.name, sortedDedup e.childNames, e.innerLink.isSome, e.hasImg,
    textBucket e.textStrip.length, hasPriceRe e.textFull)

/-- The `parts` list of `PatternDetector._get_signature`
(unified_broker_scraper_v2.py:348), in source order. -/
def sigParts (e : Element) : List Str :=
  [e.name]
  ++ (if e.childNames ≠ [] then
        [str "children:" ++ List.intercalate [','] (sortedDedup e.childNames)] else [])
  ++ (if e.innerLink.isSome then [str "has_link"] else [])
  ++ (if e.hasImg then [str "has_img"] else [])
  ++ (if 200 < e.textStrip.length then [str "text:long"]
      else if 50 < e.textStrip.length then [str "text:medium"] else [])
  ++ (if hasPriceRe e.textFull then [str "has_price"] else [])

/-- `PatternDetector._get_signature`: `'|'.join(parts)`. -/
def get_signature (e : Element) : Str := List.intercalate ['|'] (sigParts e)

/-- Well-formedness of a tag name as produced by the HTML parser: non-empty
and free of the `|` and `,` delimiter characters. -/
def wfTag (t : Str) : Prop := t ≠ [] ∧ '|' ∉ t ∧ ',' ∉ t

/-- A well-formed element: its tag name and all direct-child tag names are
well-formed tag names. -/
def wfElement (e : Element) : Prop :=
  wfTag e.name ∧ ∀ t ∈ e.childNames, wfTag t

instance (t : Str) : Decidable (wfTag t) := by
  unfold wfTag
  infer_instance

instance (e : Element) : Decidable (wfElement e) := by
  unfold wfElement
  infer_instance

lemma insertUniq_ne_nil (x : Str) (l : List Str) : insertUniq x l ≠ [] := by
  cases l with
  | nil => simp [insertUniq]
  | cons y ys =>
    unfold insertUniq
    split
    · simp
    · split <;> simp

lemma sortedDedup_eq_nil_iff (l : List Str) : sortedDedup l = [] ↔ l = [] := by
  constructor
  · intro h
    cases l with
    | nil => rfl
    | cons a t => exact absurd h (insertUniq_ne_nil a (sortedDedup t))
  · rintro rfl
    rfl

lemma mem_insertUniq {y x : Str} {l : List Str} (h : y ∈ insertUniq x l) : y = x ∨ y ∈ l := by
  induction l with
  | nil => simpa [insertUniq] using h
  | cons z zs ih =>
    unfold insertUniq at h
    split at h
    · exact Or.inr h
    · split at h
      · simpa using h
      · rcases List.mem_cons.mp h with rfl | h2
        · exact Or.inr (List.mem_cons_self _ _)
        · rcases ih h2 with h3 | h3
          · exact Or.inl h3
          · exact Or.inr (List.mem_cons_of_mem _ h3)

lemma mem_sortedDedup {y : Str} {l : List Str} (h : y ∈ sortedDedup l) : y ∈ l := by
  induction l with
  | nil => exact h
  | cons a t ih =>
    rcases mem_insertUniq h with h2 | h2
    · exact h2 ▸ List.mem_cons_self a t
    · exact List.mem_cons_of_mem _ (ih h2)

lemma isPrefixL_append (a b : Str) : isPrefixL a (a ++ b) = true := by
  induction a with
  | nil => rfl
  | cons c cs ih => simp [isPrefixL, ih]

lemma mem_intercalate_char {x c : Char} {ls : List Str}
    (h : c ∈ List.intercalate [x] ls) : c = x ∨ ∃ l ∈ ls, c ∈ l := by
  induction ls with
  | nil => simp [List.intercalate] at h
  | cons a t ih =>
    cases t with
    | nil =>
      simp [List.intercalate] at h
      exact Or.inr ⟨a, List.mem_cons_self a [], h⟩
    | cons b t2 =>
      have hx : List.intercalate [x] (a :: b :: t2) = a ++ [x] ++ List.intercalate [x] (b :: t2) := by
        simp [List.intercalate, List.intersperse_cons_cons]
      rw [hx] at h
      rcases List.mem_append.mp h with h1 | h1
      · rcases List.mem_append.mp h1 with h2 | h2
        · exact Or.inr ⟨a, List.mem_cons_self a _, h2⟩
        · exact Or.inl (by simpa using h2)
      · rcases ih h1 with h2 | ⟨l, hl, hcl⟩
        · exact Or.inl h2
        · exact Or.inr ⟨l, List.mem_cons_of_mem _ hl, hcl⟩

lemma mem_opt_singleton {c : Prop} [Decidable c] {x p : Str}
    (h : p ∈ (if c then [x] else [])) : p = x := by
  split at h
  · simpa using h
  · exact absurd h (by simp)

lemma mem_opt_two {c d : Prop} [Decidable c] [Decidable d] {x y p : Str}
    (h : p ∈ (if c then [x] else if d then [y] else [])) : p = x ∨ p = y := by
  split at h
  · exact Or.inl (by simpa using h)
  · split at h
    · exact Or.inr (by simpa using h)
    · exact absurd h (by simp)

lemma sigParts_no_bar (e : Element) (hwf : wfElement e) : ∀ p ∈ sigParts e, '|' ∉ p := by
  obtain ⟨⟨-, hn2, -⟩, hch⟩ := hwf
  intro p hp
  unfold sigParts at hp
  rcases List.mem_append.mp hp with hp | hp
  · rcases List.mem_append.mp hp with hp | hp
    · rcases List.mem_append.mp hp with hp | hp
      · rcases List.mem_append.mp hp with hp | hp
        · rcases List.mem_append.mp hp with hp | hp
          · rw [List.mem_singleton.mp hp]
            exact hn2
          · rw [mem_opt_singleton hp]
            intro hmem
            rcases List.mem_append.mp hmem with hmem | hmem
            · exact absurd hmem (by decide)
            · rcases mem_intercalate_char hmem with h1 | ⟨l, hl, hcl⟩
              · exact absurd h1 (by decide)
              · exact absurd hcl (hch l (mem_sortedDedup hl)).2.1
        · rw [mem_opt_singleton hp]
          decide
      · rw [mem_opt_singleton hp]
        decide
    · rcases mem_opt_two hp with h1 | h1 <;> rw [h1] <;> decide
  · rw [mem_opt_singleton hp]
    decide

lemma sigParts_ne_nil (e : Element) : sigParts e ≠ [] := by
  simp [sigParts]

/-- `splitOn '|'` recovers the parts list of a well-formed element's
signature. -/
lemma splitOn_get_signature (e : Element) (hwf : wfElement e) :
    (get_signature e).splitOn '|' = sigParts e :=
  List.splitOn_intercalate _ '|' (sigParts_no_bar e hwf) (sigParts_ne_nil e)

/-- Pop a leading flag part off a signature-parts list. -/
def pullFlag (flag : Str) (ps : List Str) : Bool × List Str :=
  match ps with
  | p :: t => if p = flag then (true, t) else (false, ps)
  | [] => (false, [])

/-- Recover the six signature axes from a signature's parts list. -/
def parseSig (ps : List Str) : Str × List Str × Bool × Bool × Nat × Bool :=
  match ps with
  | [] => ([], [], false, false, 0, false)
  | name :: rest0 =>
    let hasChildren : Bool :=
      match rest0 with
      | p :: _ => isPrefixL (str "children:") p
      | [] => false
    let children : List Str :=
      if hasChildren then ((rest0.headI).drop 9).splitOn ',' else []
    let rest1 := if hasChildren then rest0.tail else rest0
    let f1 := pullFlag (str "has_link") rest1
    let f2 := pullFlag (str "has_img") f1.2
    let f3 := pullFlag (str "text:long") f2.2
    let f4 := pullFlag (str "text:medium") f3.2
    let f5 := pullFlag (str "has_price") f4.2
    (name, children, f1.1, f2.1, if f3.1 then 2 else if f4.1 then 1 else 0, f5.1)

lemma parseSig_sigParts (e : Element) (hwf : wfElement e) :
    parseSig (sigParts e) = sigAxes e := by
  obtain ⟨-, hch⟩ := hwf
  by_cases hC : e.childNames = []
  · by_cases hL : e.innerLink.isSome <;> by_cases hI : e.hasImg <;>
      by_cases hP : hasPriceRe e.textFull <;>
      by_cases hB2 : 200 < e.textStrip.length <;>
      by_cases hB1 : 50 < e.textStrip.length <;>
      simp +decide [parseSig, sigParts, sigAxes, pullFlag, textBucket, sortedDedup,
        hC, hL, hI, hP, hB2, hB1]
  · have hdrop : (str "children:" ++ List.intercalate [','] (sortedDedup e.childNames)).drop 9 =
        List.intercalate [','] (sortedDedup e.childNames) :=
      List.drop_left' (by decide)
    have hsplit : (List.intercalate [','] (sortedDedup e.childNames)).splitOn ',' =
        sortedDedup e.childNames :=
      List.splitOn_intercalate _ ','
        (fun l hl => (hch l (mem_sortedDedup hl)).2.2)
        (fun hnil => hC ((sortedDedup_eq_nil_iff _).mp hnil))
    by_cases hL : e.innerLink.isSome <;> by_cases hI : e.hasImg <;>
      by_cases hP : hasPriceRe e.textFull <;>
      by_cases hB2 : 200 < e.textStrip.length <;>
      by_cases hB1 : 50 < e.textStrip.length <;>
      simp +decide [parseSig, sigParts, sigAxes, pullFlag, textBucket, isPrefixL_append,
        hdrop, hsplit, hC, hL, hI, hP, hB2, hB1]

/-- The signature parts as a function of the six axes alone. -/
def sigPartsFromAxes : Str × List Str × Bool × Bool × Nat × Bool → List Str
  | (name, children, hl, hi, bucket, hp) =>
    [name]
    ++ (if children ≠ [] then [str "children:" ++ List.intercalate [','] children] else [])
    ++ (if hl then [str "has_link"] else [])
    ++ (if hi then [str "has_img"] else [])
    ++ (if bucket = 2 then [str "text:long"] else if bucket = 1 then [str "text:medium"] else [])
    ++ (if hp then [str "has_price"] else [])

lemma sigParts_eq_fromAxes (e : Element) : sigParts e = sigPartsFromAxes (sigAxes e) := by
  by_cases hC : e.childNames = [] <;>
    by_cases hB2 : 200 < e.textStrip.length <;>
    by_cases hB1 : 50 < e.textStrip.length <;>
    simp [sigParts, sigPartsFromAxes, sigAxes, textBucket, sortedDedup_eq_nil_iff,
      hC, hB2, hB1]

/-- C2 (amended): for well-formed elements the signature is exactly a
function of the six axes — tag name, sorted de-duplicated direct-child tag
set, hyperlink presence, image presence, text-length bucket, *and*
currency-amount (`has_price`) presence: two elements agree on all six axes
iff their signatures coincide, so changing any single axis changes the
signature. -/
theorem signature_characterization (e1 e2 : Element)
    (h1 : wfElement e1) (h2 : wfElement e2) :
    get_signature e1 = get_signature e2 ↔ sigAxes e1 = sigAxes e2 := by
  constructor
  · intro h
    have hsplit := congrArg (fun s => List.splitOn '|' s) h
    simp only [splitOn_get_signature e1 h1, splitOn_get_signature e2 h2] at hsplit
    calc sigAxes e1 = parseSig (sigParts e1) := (parseSig_sigParts e1 h1).symm
      _ = parseSig (sigParts e2) := by rw [hsplit]
      _ = sigAxes e2 := parseSig_sigParts e2 h2
  · intro h
    unfold get_signature
    rw [sigParts_eq_fromAxes e1, sigParts_eq_fromAxes e2, h]

/-- C2 counterexample: two elements agreeing on tag, child set, link,
image, and text bucket (the claim's five axes) whose signatures still
differ, because the `has_price` flag depends on the text content. -/
theorem signature_counterexample :
    (({ name := str "div", textStrip := str "$123", textFull := str "$123" } : Element).name =
      ({ name := str "div", textStrip := str "abcd", textFull := str "abcd" } : Element).name ∧
     sortedDedup ({ name := str "div", textStrip := str "$123", textFull := str "$123" } : Element).childNames =
      sortedDedup ({ name := str "div", textStrip := str "abcd", textFull := str "abcd" } : Element).childNames ∧
     ({ name := str "div", textStrip := str "$123", textFull := str "$123" } : Element).innerLink.isSome =
      ({ name := str "div", textStrip := str "abcd", textFull := str "abcd" } : Element).innerLink.isSome ∧
     ({ name := str "div", textStrip := str "$123", textFull := str "$123" } : Element).hasImg =
      ({ name := str "div", textStrip := str "abcd", textFull := str "abcd" } : Element).hasImg ∧
     textBucket ({ name := str "div", textStrip := str "$123", textFull := str "$123" } : Element).textStrip.length =
      textBucket ({ name := str "div", textStrip := str "abcd", textFull := str "abcd" } : Element).textStrip.length) ∧
    get_signature { name := str "div", textStrip := str "$123", textFull := str "$123" } ≠
      get_signature { name := str "div", textStrip := str "abcd", textFull := str "abcd" } := by
  decide

/-- Witness for C2's amended characterisation at concrete elements. -/
theorem signature_characterization_witness :
    (get_signature { name := str "div", childNames := [str "a", str "span"] } =
        get_signature { name := str "div", childNames := [str "span", str "a", str "a"] } ↔
      sigAxes { name := str "div", childNames := [str "a", str "span"] } =
        sigAxes { name := str "div", childNames := [str "span", str "a", str "a"] }) :=
  signature_characterization _ _ (by decide) (by decide)

/-! ## Pattern detection (`PatternDetector.find_patterns`) -/

/-- The candidate container tags passed to `soup.find_all` (line 326). -/
def containerTags : List Str := [str "div", str "article", str "section", str "li", str "tr"]

/-- Append an element to its signature's group, preserving first-seen group
order (Python `defaultdict(list)` insertion order). -/
def addToGroup (groups : List (Str × List Element)) (sig : Str) (e : Element) :
    List (Str × List Element) :=
  match groups with
  | [] => [(sig, [e])]
  | (s, es) :: rest =>
    if s = sig then (s, es ++ [e]) :: rest else (s, es) :: addToGroup rest sig e

/-- The `signatures` dictionary of `find_patterns` (lines 325-332): iterate
the container-tag elements in document order, skip those outside the
nesting-depth band [3, 15], compute the signature, and group the elements
with a non-empty signature. -/
def signatureGroups (els : List Element) : List (Str × List Element) :=
  els.foldl (fun groups el =>
    if el.name ∈ containerTags then
      if el.depth < 3 ∨ 15 < el.depth then groups
      else if get_signature el ≠ [] then addToGroup groups (get_signature el) el
      else groups
    else groups) []

/-- `el.find('a', href=True) and len(el.get_text(strip=True)) > 50`
(line 337). -/
def validCard (el : Element) : Bool :=
  el.innerLink.isSome && decide (50 < el.textStrip.length)

structure Pattern where
  signature : Str
  elements : List Element
  count : Nat
  avg_text_length : ℚ
  deriving DecidableEq

instance : Inhabited Pattern := ⟨⟨[], [], 0, 0⟩⟩

/-- Stable insertion keeping counts descending (`list.sort(key=count,
reverse=True)` is a stable descending sort). -/
def insertByCountDesc (p : Pattern) : List Pattern → List Pattern
  | [] => [p]
  | q :: qs => if p.count ≤ q.count then q :: insertByCountDesc p qs else p :: q :: qs

def sortByCountDesc (l : List Pattern) : List Pattern :=
  l.foldl (fun acc p => insertByCountDesc p acc) []

/-- `PatternDetector.find_patterns` (unified_broker_scraper_v2.py:323):
groups of at least 3 elements keep only their valid members; a group
survives only when at least 3 members are valid, and the surviving group's
`elements`/`count` are the valid members and their number. -/
def find_patterns (els : List Element) : List Pattern :=
  sortByCountDesc ((signatureGroups els).filterMap (fun g =>
    if 3 ≤ g.2.length then
      let valid := g.2.filter validCard
      if 3 ≤ valid.length then
        some { signature := g.1, elements := valid, count := valid.length,
               avg_text_length :=
                 ((valid.map (fun el => (el.textFull.length : ℚ))).sum) / (valid.length : ℚ) }
      else none
    else none))

lemma insertByCountDesc_perm (p : Pattern) (l : List Pattern) :
    List.Perm (insertByCountDesc p l) (p :: l) := by
  induction l with
  | nil => rfl
  | cons q qs ih =>
    unfold insertByCountDesc
    split
    · exact ((ih.cons q).trans (List.Perm.swap p q qs)).symm.symm
    · rfl

lemma sortByCountDesc_perm (l : List Pattern) : List.Perm (sortByCountDesc l) l := by
  suffices h : ∀ acc, List.Perm (l.foldl (fun acc p => insertByCountDesc p acc) acc) (acc ++ l) by
    simpa using h []
  induction l with
  | nil => intro acc; simp
  | cons x xs ih =>
    intro acc
    have h1 := ih (insertByCountDesc x acc)
    have h2 : List.Perm (insertByCountDesc x acc ++ xs) ((x :: acc) ++ xs) :=
      (insertByCountDesc_perm x acc).append_right xs
    have h3 : List.Perm ((x :: acc) ++ xs) (acc ++ x :: xs) := by
      simpa using List.perm_middle.symm
    simpa using (h1.trans h2).trans h3

lemma headI_mem_of_ne_nil {α : Type} [Inhabited α] {l : List α} (h : l ≠ []) :
    l.headI ∈ l := by
  cases l with
  | nil => exact absurd rfl h
  | cons a t => exact List.mem_cons_self a t

lemma addToGroup_keys (groups : List (Str × List Element)) (sig : Str) (e : Element) :
    (addToGroup groups sig e).map Prod.fst =
      if sig ∈ groups.map Prod.fst then groups.map Prod.fst
      else groups.map Prod.fst ++ [sig] := by
  induction groups with
  | nil => simp [addToGroup]
  | cons g rest ih =>
    obtain ⟨s, es⟩ := g
    unfold addToGroup
    by_cases hs : s = sig
    · subst hs
      simp
    · simp only [List.map_cons]
      rw [if_neg hs]
      simp only [List.map_cons, ih]
      by_cases hmem : sig ∈ rest.map Prod.fst
      · rw [if_pos hmem, if_pos (by simp [hmem])]
      · rw [if_neg hmem, if_neg (by simp [hmem, Ne.symm hs]), List.cons_append]

lemma addToGroup_keys_nodup {groups : List (Str × List Element)} {sig : Str} {e : Element}
    (h : (groups.map Prod.fst).Nodup) : ((addToGroup groups sig e).map Prod.fst).Nodup := by
  rw [addToGroup_keys]
  by_cases hmem : sig ∈ groups.map Prod.fst
  · rwa [if_pos hmem]
  · rw [if_neg hmem]
    simp [List.nodup_append, h, hmem]

lemma signatureGroups_keys_nodup (els : List Element) :
    ((signatureGroups els).map Prod.fst).Nodup := by
  suffices h : ∀ acc : List (Str × List Element), (acc.map Prod.fst).Nodup →
      ((els.foldl (fun groups el =>
        if el.name ∈ containerTags then
          if el.depth < 3 ∨ 15 < el.depth then groups
          else if get_signature el ≠ [] then addToGroup groups (get_signature el) el
          else groups
        else groups) acc).map Prod.fst).Nodup by
    exact h [] (by simp)
  induction els with
  | nil => intro acc hacc; simpa using hacc
  | cons el rest ih =>
    intro acc hacc
    simp only [List.foldl_cons]
    apply ih
    by_cases h1 : el.name ∈ containerTags
    · by_cases h2 : el.depth < 3 ∨ 15 < el.depth
      · simpa [h1, h2] using hacc
      · by_cases h3 : get_signature el ≠ []
        · simpa [h1, h2, h3] using addToGroup_keys_nodup hacc
        · simpa [h1, h2, h3] using hacc
    · simpa [h1] using hacc

lemma eq_of_mem_keys_nodup {l : List (Str × List Element)} (hnd : (l.map Prod.fst).Nodup)
    {g g' : Str × List Element} (hg : g ∈ l) (hg' : g' ∈ l) (heq : g.1 = g'.1) : g = g' := by
  induction l with
  | nil => exact absurd hg (by simp)
  | cons a t ih =>
    simp only [List.map_cons, List.nodup_cons] at hnd
    rcases List.mem_cons.mp hg with rfl | hgt
    · rcases List.mem_cons.mp hg' with rfl | hg't
      · rfl
      · exact absurd (heq ▸ List.mem_map_of_mem Prod.fst hg't) hnd.1
    · rcases List.mem_cons.mp hg' with rfl | hg't
      · exact absurd (heq ▸ List.mem_map_of_mem Prod.fst hgt) hnd.1
      · exact ih hnd.2 hgt hg't

/-- C4: every pattern the detector returns has `count ≥ 3` and at least 3
member elements with an outbound hyperlink and stripped text longer than 50
characters; and a signature group violating either threshold contributes no
pattern to the output. -/
theorem pattern_validity (els : List Element) :
    (∀ p ∈ find_patterns els, 3 ≤ p.count ∧ 3 ≤ (p.elements.filter validCard).length) ∧
    (∀ g ∈ signatureGroups els, (g.2.length < 3 ∨ (g.2.filter validCard).length < 3) →
      ∀ p ∈ find_patterns els, p.signature ≠ g.1) := by
  have hmem : ∀ p, p ∈ find_patterns els →
      ∃ g ∈ signatureGroups els, 3 ≤ g.2.length ∧ 3 ≤ (g.2.filter validCard).length ∧
        p.signature = g.1 ∧ p.elements = g.2.filter validCard ∧
        p.count = (g.2.filter validCard).length := by
    intro p hp
    have hp' := (sortByCountDesc_perm _).mem_iff.mp hp
    rcases List.mem_filterMap.mp hp' with ⟨g, hg, hfg⟩
    by_cases h3 : 3 ≤ g.2.length
    · by_cases hv : 3 ≤ (g.2.filter validCard).length
      · simp only [h3, if_true, hv, Option.some.injEq] at hfg
        refine ⟨g, hg, h3, hv, ?_, ?_, ?_⟩ <;> rw [← hfg]
      · simp [h3, hv] at hfg
    · simp [h3] at hfg
  constructor
  · intro p hp
    rcases hmem p hp with ⟨g, -, -, hv, -, hel, hcnt⟩
    refine ⟨hcnt ▸ hv, ?_⟩
    have : p.elements.filter validCard = p.elements := by
      rw [hel]
      exact List.filter_eq_self.mpr (fun a ha => List.of_mem_filter ha)
    rw [this, hel]
    exact hv
  · intro g hg hbad p hp hsig
    rcases hmem p hp with ⟨g', hg', h3, hv, hsig', -, -⟩
    have : g' = g := eq_of_mem_keys_nodup (signatureGroups_keys_nodup els) hg' hg (hsig ▸ hsig').symm
    subst this
    rcases hbad with hbad | hbad
    · exact absurd h3 (by omega)
    · exact absurd hv (by omega)

/-- A synthetic page: three identical valid listing cards plus one stray
element of a different signature. -/
def cardEl : Element :=
  { name := str "div", depth := 5, innerLink := some (str "http://x/l"),
    textStrip := str "a cleaning business for sale with a long description text",
    textSpace := str "a cleaning business for sale with a long description text",
    textFull := str "a cleaning business for sale with a long description text" }

def strayEl : Element := { name := str "li", depth := 5, textStrip := str "hi" }

def demoPage : List Element := [cardEl, cardEl, cardEl, strayEl]

/-- Witness for C4 at the synthetic page. -/
theorem pattern_validity_witness :
    3 ≤ ((find_patterns demoPage).headI).count ∧
    3 ≤ (((find_patterns demoPage).headI).elements.filter validCard).length :=
  (pattern_validity demoPage).1 _ (headI_mem_of_ne_nil
    (List.ne_nil_of_length_pos (by decide)))

/-! ## Pattern knowledge base (`PatternDatabase`) -/

/-- One in-memory record of `PatternDatabase.patterns` (a Python dict keyed
by domain, represented as an insertion-ordered association list). -/
structure DomainRec where
  pattern : Str
  success_count : Nat
  total_listings : Nat
  first_seen : Str
  last_used : Str
  deriving DecidableEq

instance : Inhabited DomainRec := ⟨⟨[], 0, 0, [], []⟩⟩

/-- Python dict lookup on an insertion-ordered association list. -/
def lookupAssoc {β : Type} (l : List (Str × β)) (k : Str) : Option β :=
  match l with
  | [] => none
  | (k', v) :: t => if k' = k then some v else lookupAssoc t k

/-- Bounded-fuel worker for `replaceAll` (the fuel `s.length` suffices since
every step consumes at least one character). -/
def replaceAllAux (pat rep : Str) : Nat → Str → Str
  | 0, s => s
  | _ + 1, [] => []
  | fuel + 1, c :: cs =>
    if pat ≠ [] ∧ isPrefixL pat (c :: cs) then
      rep ++ replaceAllAux pat rep fuel ((c :: cs).drop pat.length)
    else c :: replaceAllAux pat rep fuel cs

/-- Python `str.replace(pat, rep)`: replace every non-overlapping occurrence,
left to right. -/
def replaceAll (pat rep s : Str) : Str := replaceAllAux pat rep s.length s

/-- The remainder of `s` after the first occurrence of `pat`, if any. -/
def afterSubstr (pat : Str) : Str → Option Str
  | [] => if isPrefixL pat [] then some [] else none
  | s@(_ :: rest) =>
    if isPrefixL pat s then some (s.drop pat.length) else afterSubstr pat rest

/-- Model of `urlparse(url).netloc`: the authority component between the
`//` (after an optional scheme) and the first `/`, `?` or `#`; empty when the
URL has no `//` (scheme-less URLs parse as a bare path). -/
def getNetloc (u : Str) : Str :=
  match afterSubstr (str "://") u with
  | some rest => rest.takeWhile (fun c => c ≠ '/' ∧ c ≠ '?' ∧ c ≠ '#')
  | none =>
    if isPrefixL (str "//") u then
      (u.drop 2).takeWhile (fun c => c ≠ '/' ∧ c ≠ '?' ∧ c ≠ '#')
    else []

/-- `urlparse(url).netloc.replace('www.', '')` (lines 161, 198, 675). -/
def targetDomain (url : Str) : Str := replaceAll (str "www.") [] (getNetloc url)

/-- `set(s[i:i+3] for i in range(len(s)-2))`: the distinct character
trigrams of a string (kept as a first-occurrence-ordered list). -/
def trigrams (s : Str) : List Str :=
  ((List.range (s.length - 2)).map (fun i => (s.drop i).take 3)).eraseDups

/-- `PatternDatabase._domain_similarity` (line 230): Jaccard similarity of
the trigram sets, 0 when either set is empty. -/
def domain_similarity (d1 d2 : Str) : ℚ :=
  let t1 := trigrams d1
  let t2 := trigrams d2
  if t1 = [] ∨ t2 = [] then 0
  else ((t1.filter (· ∈ t2)).length : ℚ) / ((t1 ++ t2.filter (· ∉ t1)).length : ℚ)

/-- Stable insertion keeping similarities descending (`sims.sort(key=x[1],
reverse=True)` is a stable descending sort). -/
def insertBySimDesc (x : Str × ℚ) : List (Str × ℚ) → List (Str × ℚ)
  | [] => [x]
  | y :: ys => if x.2 ≤ y.2 then y :: insertBySimDesc x ys else x :: y :: ys

def sortBySimDesc (l : List (Str × ℚ)) : List (Str × ℚ) :=
  l.foldl (fun acc x => insertBySimDesc x acc) []

/-- `PatternDatabase._find_similar_domains` (line 221): every known domain
with trigram similarity strictly above 0.3, sorted by similarity
descending. -/
def find_similar_domains (db : List (Str × DomainRec)) (target : Str) : List (Str × ℚ) :=
  sortBySimDesc (db.filterMap (fun p =>
    if 3/10 < domain_similarity target p.1 then some (p.1, domain_similarity target p.1)
    else none))

/-- `pattern_scores[pattern] += weight` on a `defaultdict(float)`
(insertion-ordered). -/
def bumpScore (scores : List (Str × ℚ)) (k : Str) (v : ℚ) : List (Str × ℚ) :=
  match scores with
  | [] => [(k, v)]
  | (k', v') :: t => if k' = k then (k', v' + v) :: t else (k', v') :: bumpScore t k v

/-- One iteration of the scoring loop of `predict_pattern` (lines 208-213):
a similar domain contributes `similarity * success_count` to its pattern's
score when that pattern was observed on the current page. -/
def scoreStep (db : List (Str × DomainRec)) (available : List Str)
    (scores : List (Str × ℚ)) (sd : Str × ℚ) : List (Str × ℚ) :=
  match lookupAssoc db sd.1 with
  | some rec =>
    if rec.pattern ∈ available then
      bumpScore scores rec.pattern (sd.2 * (rec.success_count : ℚ))
    else scores
  | none => scores

def patternScores (db : List (Str × DomainRec)) (top5 : List (Str × ℚ))
    (available : List Str) : List (Str × ℚ) :=
  top5.foldl (scoreStep db available) []

/-- `max(pattern_scores, key=pattern_scores.get)`: the first key attaining
the maximal value (later ties do not replace the incumbent). -/
def argmaxFirst (l : List (Str × ℚ)) : Option Str :=
  match l with
  | [] => none
  | x :: t => some ((t.foldl (fun best y => if best.2 < y.2 then y else best) x).1)

/-- `PatternDatabase.predict_pattern` (unified_broker_scraper_v2.py:197). -/
def predict_pattern (db : List (Str × DomainRec)) (url : Str)
    (available_patterns : List Str) : Option Str :=
  let domain := targetDomain url
  match lookupAssoc db domain with
  | some rec => some rec.pattern
  | none =>
    let similar := find_similar_domains db domain
    if similar = [] then none
    else argmaxFirst (patternScores db (similar.take 5) available_patterns)

/-- The total weighted score `Σ similarity × successCount` that the top-5
similar domains contribute to one signature `q`. -/
def weightedScore (db : List (Str × DomainRec)) (top5 : List (Str × ℚ))
    (available : List Str) (q : Str) : ℚ :=
  (top5.map (fun sd =>
    match lookupAssoc db sd.1 with
    | some rec =>
      if rec.pattern = q ∧ rec.pattern ∈ available then sd.2 * (rec.success_count : ℚ) else 0
    | none => 0)).sum

/-- `sd` contributes its domain's pattern `q` to the score dictionary. -/
def bumpsTo (db : List (Str × DomainRec)) (available : List Str)
    (sd : Str × ℚ) (q : Str) : Prop :=
  ∃ rec, lookupAssoc db sd.1 = some rec ∧ rec.pattern = q ∧ rec.pattern ∈ available

lemma bumpScore_lookup (scores : List (Str × ℚ)) (k : Str) (v : ℚ) (q : Str) :
    lookupAssoc (bumpScore scores k v) q =
      if q = k then some ((lookupAssoc scores k).getD 0 + v) else lookupAssoc scores q := by
  induction scores with
  | nil =>
    by_cases hq : q = k
    · simp [bumpScore, lookupAssoc, hq, zero_add]
    · simp [bumpScore, lookupAssoc, hq, Ne.symm hq]
  | cons e t ih =>
    obtain ⟨k', v'⟩ := e
    by_cases hk : k' = k
    · subst hk
      by_cases hq : q = k'
      · subst hq
        simp [bumpScore, lookupAssoc]
      · simp [bumpScore, lookupAssoc, hq, Ne.symm hq]
    · by_cases hq : q = k'
      · subst hq
        simp [bumpScore, lookupAssoc, hk, Ne.symm hk]
      · simp [bumpScore, lookupAssoc, hk, hq, Ne.symm hq, ih]

lemma bumpScore_ne_nil (scores : List (Str × ℚ)) (k : Str) (v : ℚ) :
    bumpScore scores k v ≠ [] := by
  cases scores with
  | nil => simp [bumpScore]
  | cons e t =>
    obtain ⟨k', v'⟩ := e
    unfold bumpScore
    split <;> simp

lemma scoreStep_ne_nil (db : List (Str × DomainRec)) (available : List Str)
    {scores : List (Str × ℚ)} (h : scores ≠ []) (sd : Str × ℚ) :
    scoreStep db available scores sd ≠ [] := by
  unfold scoreStep
  split
  · split
    · exact bumpScore_ne_nil _ _ _
    · exact h
  · exact h

lemma scoresFold_ne_nil (db : List (Str × DomainRec)) (available : List Str)
    (l : List (Str × ℚ)) : ∀ {acc : List (Str × ℚ)}, acc ≠ [] →
    l.foldl (scoreStep db available) acc ≠ [] := by
  induction l with
  | nil => intro acc h; simpa using h
  | cons sd t ih =>
    intro acc h
    simpa using ih (scoreStep_ne_nil db available h sd)

lemma patternScores_eq_nil_iff (db : List (Str × DomainRec)) (available : List Str)
    (l : List (Str × ℚ)) :
    patternScores db l available = [] ↔
      ∀ sd ∈ l, ∀ rec, lookupAssoc db sd.1 = some rec → rec.pattern ∉ available := by
  induction l with
  | nil => simp [patternScores]
  | cons sd t ih =>
    unfold patternScores at ih ⊢
    simp only [List.foldl_cons]
    rcases hdb : lookupAssoc db sd.1 with _ | rec
    · rw [show scoreStep db available [] sd = [] by simp [scoreStep, hdb]]
      rw [ih]
      constructor
      · intro h
        intro sd' hsd' rec hrec
        rcases List.mem_cons.mp hsd' with rfl | hsd't
        · rw [hdb] at hrec; exact absurd hrec (by simp)
        · exact h sd' hsd't rec hrec
      · intro h sd' hsd' rec hrec
        exact h sd' (List.mem_cons_of_mem _ hsd') rec hrec
    · by_cases hav : rec.pattern ∈ available
      · rw [show scoreStep db available [] sd = bumpScore [] rec.pattern (sd.2 * (rec.success_count : ℚ))
            by simp [scoreStep, hdb, hav]]
        constructor
        · intro h
          exact absurd h (scoresFold_ne_nil db available t (bumpScore_ne_nil _ _ _))
        · intro h
          exact absurd hav (h sd (List.mem_cons_self _ _) rec hdb)
      · rw [show scoreStep db available [] sd = [] by simp [scoreStep, hdb, hav]]
        rw [ih]
        constructor
        · intro h sd' hsd' rec' hrec'
          rcases List.mem_cons.mp hsd' with rfl | hsd't
          · rw [hdb] at hrec'
            obtain rfl : rec = rec' := by simpa using hrec'
            exact hav
          · exact h sd' hsd't rec' hrec'
        · intro h sd' hsd' rec hrec
          exact h sd' (List.mem_cons_of_mem _ hsd') rec hrec

lemma scoresFold_lookup (db : List (Str × DomainRec)) (available : List Str) :
    ∀ (l : List (Str × ℚ)) (acc : List (Str × ℚ)) (q : Str),
    (¬((lookupAssoc acc q).isSome = true ∨ ∃ sd ∈ l, bumpsTo db available sd q) →
      lookupAssoc (l.foldl (scoreStep db available) acc) q = none) ∧
    (((lookupAssoc acc q).isSome = true ∨ ∃ sd ∈ l, bumpsTo db available sd q) →
      lookupAssoc (l.foldl (scoreStep db available) acc) q =
        some ((lookupAssoc acc q).getD 0 + weightedScore db l available q)) := by
  intro l
  induction l with
  | nil =>
    intro acc q
    constructor
    · intro h
      simp only [List.foldl_nil]
      rcases hlk : lookupAssoc acc q with _ | x
      · rfl
      · exact absurd (Or.inl (by simp [hlk])) h
    · intro h
      simp only [List.foldl_nil, weightedScore, List.map_nil, List.sum_nil]
      rcases hlk : lookupAssoc acc q with _ | x
      · rcases h with h | h
        · rw [hlk] at h; exact absurd h (by simp)
        · exact absurd h (by simp)
      · simp [add_zero]
  | cons sd t ih =>
    intro acc q
    rcases hdb : lookupAssoc db sd.1 with _ | rec
    · have hstep : scoreStep db available acc sd = acc := by simp [scoreStep, hdb]
      have hb : ¬ bumpsTo db available sd q := by
        rintro ⟨rec, hrec, -, -⟩
        rw [hdb] at hrec
        exact absurd hrec (by simp)
      have hcond : ((lookupAssoc acc q).isSome = true ∨ ∃ sd' ∈ sd :: t, bumpsTo db available sd' q) ↔
          ((lookupAssoc acc q).isSome = true ∨ ∃ sd' ∈ t, bumpsTo db available sd' q) := by
        constructor
        · rintro (h | ⟨sd', hsd', hb'⟩)
          · exact Or.inl h
          · rcases List.mem_cons.mp hsd' with rfl | hm
            · exact absurd hb' hb
            · exact Or.inr ⟨sd', hm, hb'⟩
        · rintro (h | ⟨sd', hm, hb'⟩)
          · exact Or.inl h
          · exact Or.inr ⟨sd', List.mem_cons_of_mem _ hm, hb'⟩
      constructor
      · intro h
        simp only [List.foldl_cons, hstep]
        exact (ih acc q).1 (fun hc => h (hcond.mpr hc))
      · intro h
        simp only [List.foldl_cons, hstep]
        have hw0 : weightedScore db (sd :: t) available q = weightedScore db t available q := by
          simp [weightedScore, hdb]
        rw [(ih acc q).2 (hcond.mp h), hw0]
    · by_cases hav : rec.pattern ∈ available
      · by_cases hpq : rec.pattern = q
        · have hav' : q ∈ available := hpq ▸ hav
          have hstep : scoreStep db available acc sd =
              bumpScore acc q (sd.2 * (rec.success_count : ℚ)) := by
            simp [scoreStep, hdb, hpq, hav']
          have hb : bumpsTo db available sd q := ⟨rec, hdb, hpq, hav⟩
          have hlk : lookupAssoc (bumpScore acc q (sd.2 * (rec.success_count : ℚ))) q =
              some ((lookupAssoc acc q).getD 0 + sd.2 * (rec.success_count : ℚ)) := by
            rw [bumpScore_lookup]
            simp
          constructor
          · intro h
            exact absurd (Or.inr ⟨sd, List.mem_cons_self _ _, hb⟩) h
          · intro h
            simp only [List.foldl_cons, hstep]
            have hw1 : weightedScore db (sd :: t) available q =
                sd.2 * (rec.success_count : ℚ) + weightedScore db t available q := by
              simp [weightedScore, hdb, hpq, hav']
            rw [(ih _ q).2 (Or.inl (by simp [hlk])), hlk, hw1]
            simp only [Option.getD_some]
            ring_nf
        · have hstep : scoreStep db available acc sd =
              bumpScore acc rec.pattern (sd.2 * (rec.success_count : ℚ)) := by
            simp [scoreStep, hdb, hav]
          have hb : ¬ bumpsTo db available sd q := by
            rintro ⟨rec', hrec', hp', -⟩
            rw [hdb] at hrec'
            obtain rfl : rec = rec' := by simpa using hrec'
            exact hpq hp'
          have hlk : lookupAssoc (bumpScore acc rec.pattern (sd.2 * (rec.success_count : ℚ))) q =
              lookupAssoc acc q := by
            rw [bumpScore_lookup, if_neg (fun h => hpq h.symm)]
          have hcond : ((lookupAssoc acc q).isSome = true ∨
                ∃ sd' ∈ sd :: t, bumpsTo db available sd' q) ↔
              ((lookupAssoc acc q).isSome = true ∨ ∃ sd' ∈ t, bumpsTo db available sd' q) := by
            constructor
            · rintro (h | ⟨sd', hsd', hb'⟩)
              · exact Or.inl h
              · rcases List.mem_cons.mp hsd' with rfl | hm
                · exact absurd hb' hb
                · exact Or.inr ⟨sd', hm, hb'⟩
            · rintro (h | ⟨sd', hm, hb'⟩)
              · exact Or.inl h
              · exact Or.inr ⟨sd', List.mem_cons_of_mem _ hm, hb'⟩
          constructor
          · intro h
            simp only [List.foldl_cons, hstep]
            have := (ih (bumpScore acc rec.pattern (sd.2 * (rec.success_count : ℚ))) q).1
            rw [hlk] at this
            exact this (fun hc => h (hcond.mpr hc))
          · intro h
            simp only [List.foldl_cons, hstep]
            have := (ih (bumpScore acc rec.pattern (sd.2 * (rec.success_count : ℚ))) q).2
            rw [hlk] at this
            have hw2 : weightedScore db (sd :: t) available q = weightedScore db t available q := by
              simp [weightedScore, hdb, hpq]
            rw [this (hcond.mp h), hw2]
      · have hstep : scoreStep db available acc sd = acc := by simp [scoreStep, hdb, hav]
        have hb : ¬ bumpsTo db available sd q := by
          rintro ⟨rec', hrec', -, hav'⟩
          rw [hdb] at hrec'
          obtain rfl : rec = rec' := by simpa using hrec'
          exact hav hav'
        have hcond : ((lookupAssoc acc q).isSome = true ∨
              ∃ sd' ∈ sd :: t, bumpsTo db available sd' q) ↔
            ((lookupAssoc acc q).isSome = true ∨ ∃ sd' ∈ t, bumpsTo db available sd' q) := by
          constructor
          · rintro (h | ⟨sd', hsd', hb'⟩)
            · exact Or.inl h
            · rcases List.mem_cons.mp hsd' with rfl | hm
              · exact absurd hb' hb
              · exact Or.inr ⟨sd', hm, hb'⟩
          · rintro (h | ⟨sd', hm, hb'⟩)
            · exact Or.inl h
            · exact Or.inr ⟨sd', List.mem_cons_of_mem _ hm, hb'⟩
        constructor
        · intro h
          simp only [List.foldl_cons, hstep]
          exact (ih acc q).1 (fun hc => h (hcond.mpr hc))
        · intro h
          simp only [List.foldl_cons, hstep]
          have hw3 : weightedScore db (sd :: t) available q = weightedScore db t available q := by
            simp [weightedScore, hdb, hav]
          rw [(ih acc q).2 (hcond.mp h), hw3]

lemma bumpScore_keys (scores : List (Str × ℚ)) (k : Str) (v : ℚ) :
    (bumpScore scores k v).map Prod.fst =
      if k ∈ scores.map Prod.fst then scores.map Prod.fst
      else scores.map Prod.fst ++ [k] := by
  induction scores with
  | nil => simp [bumpScore]
  | cons e t ih =>
    obtain ⟨k', v'⟩ := e
    unfold bumpScore
    by_cases hk : k' = k
    · subst hk
      simp
    · simp only [List.map_cons]
      rw [if_neg hk]
      simp only [List.map_cons, ih]
      by_cases hmem : k ∈ t.map Prod.fst
      · rw [if_pos hmem, if_pos (by simp [hmem])]
      · rw [if_neg hmem, if_neg (by simp [hmem, Ne.symm hk]), List.cons_append]

lemma bumpScore_keys_nodup {scores : List (Str × ℚ)} {k : Str} {v : ℚ}
    (h : (scores.map Prod.fst).Nodup) : ((bumpScore scores k v).map Prod.fst).Nodup := by
  rw [bumpScore_keys]
  by_cases hmem : k ∈ scores.map Prod.fst
  · rwa [if_pos hmem]
  · rw [if_neg hmem]
    simp [List.nodup_append, h, hmem]

lemma patternScores_keys_nodup (db : List (Str × DomainRec)) (available : List Str)
    (l : List (Str × ℚ)) : ((patternScores db l available).map Prod.fst).Nodup := by
  suffices h : ∀ acc : List (Str × ℚ), (acc.map Prod.fst).Nodup →
      ((l.foldl (scoreStep db available) acc).map Prod.fst).Nodup by
    exact h [] (by simp)
  induction l with
  | nil => intro acc hacc; simpa using hacc
  | cons sd t ih =>
    intro acc hacc
    simp only [List.foldl_cons]
    apply ih
    unfold scoreStep
    split
    · split
      · exact bumpScore_keys_nodup hacc
      · exact hacc
    · exact hacc

lemma lookup_of_mem_nodup {l : List (Str × ℚ)} (hnd : (l.map Prod.fst).Nodup)
    {k : Str} {v : ℚ} (hm : (k, v) ∈ l) : lookupAssoc l k = some v := by
  induction l with
  | nil => exact absurd hm (by simp)
  | cons e t ih =>
    obtain ⟨k', v'⟩ := e
    simp only [List.map_cons, List.nodup_cons] at hnd
    rcases List.mem_cons.mp hm with heq | hmt
    · obtain ⟨rfl, rfl⟩ := Prod.mk.injEq .. ▸ heq
      · simp [lookupAssoc]
    · have hk : k' ≠ k := by
        rintro rfl
        exact hnd.1 (List.mem_map_of_mem Prod.fst hmt)
      simp [lookupAssoc, hk, ih hnd.2 hmt]

lemma foldl_best_spec (t : List (Str × ℚ)) : ∀ (x : Str × ℚ),
    (t.foldl (fun best y => if best.2 < y.2 then y else best) x = x ∨
      t.foldl (fun best y => if best.2 < y.2 then y else best) x ∈ t) ∧
    x.2 ≤ (t.foldl (fun best y => if best.2 < y.2 then y else best) x).2 ∧
    ∀ y ∈ t, y.2 ≤ (t.foldl (fun best y => if best.2 < y.2 then y else best) x).2 := by
  induction t with
  | nil => intro x; exact ⟨Or.inl rfl, le_refl _, by simp⟩
  | cons y ys ih =>
    intro x
    simp only [List.foldl_cons]
    by_cases hxy : x.2 < y.2
    · rw [if_pos hxy]
      rcases ih y with ⟨hmem, hle, hall⟩
      refine ⟨?_, ?_, ?_⟩
      · rcases hmem with h | h
        · exact Or.inr (by rw [h]; exact List.mem_cons_self y ys)
        · exact Or.inr (List.mem_cons_of_mem _ h)
      · exact le_of_lt (lt_of_lt_of_le hxy hle)
      · intro z hz
        rcases List.mem_cons.mp hz with rfl | hz
        · exact hle
        · exact hall z hz
    · rw [if_neg hxy]
      rcases ih x with ⟨hmem, hle, hall⟩
      refine ⟨?_, hle, ?_⟩
      · rcases hmem with h | h
        · exact Or.inl h
        · exact Or.inr (List.mem_cons_of_mem _ h)
      · intro z hz
        rcases List.mem_cons.mp hz with rfl | hz
        · exact le_trans (le_of_not_lt hxy) hle
        · exact hall z hz

lemma argmaxFirst_spec {l : List (Str × ℚ)} {p : Str} (h : argmaxFirst l = some p) :
    ∃ v, (p, v) ∈ l ∧ ∀ y ∈ l, y.2 ≤ v := by
  cases l with
  | nil => exact absurd h (by simp [argmaxFirst])
  | cons x t =>
    simp only [argmaxFirst, Option.some.injEq] at h
    rcases foldl_best_spec t x with ⟨hmem, hle, hall⟩
    set b := t.foldl (fun best y => if best.2 < y.2 then y else best) x with hb
    refine ⟨b.2, ?_, ?_⟩
    · have hpb : (p, b.2) = b := by rw [← h]
      rw [hpb]
      rcases hmem with hm | hm
      · exact (by rw [hm]; exact List.mem_cons_self x t)
      · exact List.mem_cons_of_mem _ hm
    · intro y hy
      rcases List.mem_cons.mp hy with rfl | hy
      · exact hle
      · exact hall y hy

lemma mem_insertBySimDesc {y x : Str × ℚ} {l : List (Str × ℚ)} :
    y ∈ insertBySimDesc x l ↔ y = x ∨ y ∈ l := by
  induction l with
  | nil => simp [insertBySimDesc]
  | cons z zs ih =>
    unfold insertBySimDesc
    split
    · simp only [List.mem_cons, ih]
      tauto
    · simp [List.mem_cons]

lemma pairwise_insertBySimDesc {x : Str × ℚ} {l : List (Str × ℚ)}
    (h : l.Pairwise (fun a b => b.2 ≤ a.2)) :
    (insertBySimDesc x l).Pairwise (fun a b => b.2 ≤ a.2) := by
  induction l with
  | nil => simp [insertBySimDesc]
  | cons z zs ih =>
    rcases List.pairwise_cons.mp h with ⟨hz, hzs⟩
    unfold insertBySimDesc
    split
    · refine List.pairwise_cons.mpr ⟨?_, ih hzs⟩
      intro y hy
      rcases mem_insertBySimDesc.mp hy with rfl | hy
      · assumption
      · exact hz y hy
    · refine List.pairwise_cons.mpr ⟨?_, h⟩
      intro y hy
      rcases List.mem_cons.mp hy with rfl | hy
      · exact le_of_lt (lt_of_not_le (by assumption))
      · exact le_trans (hz y hy) (le_of_lt (lt_of_not_le (by assumption)))

lemma pairwise_sortBySimDesc (l : List (Str × ℚ)) :
    (sortBySimDesc l).Pairwise (fun a b => b.2 ≤ a.2) := by
  suffices h : ∀ acc : List (Str × ℚ), acc.Pairwise (fun a b => b.2 ≤ a.2) →
      (l.foldl (fun acc x => insertBySimDesc x acc) acc).Pairwise (fun a b => b.2 ≤ a.2) by
    exact h [] (by simp)
  induction l with
  | nil => intro acc hacc; simpa using hacc
  | cons x xs ih =>
    intro acc hacc
    simpa using ih _ (pairwise_insertBySimDesc hacc)

lemma mem_sortBySimDesc {y : Str × ℚ} {l : List (Str × ℚ)} :
    y ∈ sortBySimDesc l ↔ y ∈ l := by
  suffices h : ∀ acc : List (Str × ℚ),
      (y ∈ l.foldl (fun acc x => insertBySimDesc x acc) acc ↔ y ∈ acc ∨ y ∈ l) by
    simpa using h []
  induction l with
  | nil => intro acc; simp
  | cons x xs ih =>
    intro acc
    simp only [List.foldl_cons, ih, mem_insertBySimDesc, List.mem_cons]
    tauto

lemma weightedScore_nonneg (db : List (Str × DomainRec)) (top5 : List (Str × ℚ))
    (available : List Str) (q : Str) (h : ∀ sd ∈ top5, 0 ≤ sd.2) :
    0 ≤ weightedScore db top5 available q := by
  apply List.sum_nonneg
  intro a ha
  rcases List.mem_map.mp ha with ⟨sd, hsd, rfl⟩
  rcases hrec : lookupAssoc db sd.1 with _ | rec
  · simp
  · simp only [hrec]
    split
    · exact mul_nonneg (h sd hsd) (by positivity)
    · exact le_refl 0

lemma mem_of_lookupAssoc {l : List (Str × ℚ)} {k : Str} {v : ℚ}
    (h : lookupAssoc l k = some v) : (k, v) ∈ l := by
  induction l with
  | nil => exact absurd h (by simp [lookupAssoc])
  | cons e t ih =>
    obtain ⟨k', v'⟩ := e
    unfold lookupAssoc at h
    split at h
    · obtain rfl : v' = v := by simpa using h
      rename_i heq
      subst heq
      exact List.mem_cons_self _ _
    · exact List.mem_cons_of_mem _ (ih h)

lemma argmaxFirst_eq_none_iff (l : List (Str × ℚ)) : argmaxFirst l = none ↔ l = [] := by
  cases l <;> simp [argmaxFirst]

/-- C5: for a domain with no exact record, pattern prediction works exactly
as specified: the candidate list is the set of known domains whose
trigram-Jaccard similarity to the target hostname strictly exceeds 3/10,
ordered by decreasing similarity; the prediction is `none` iff there is no
candidate or no pattern of the top-5 candidates occurs among the available
signatures; and any predicted signature is an available signature of a
top-5 candidate whose total `similarity × successCount` weight is maximal
among all signatures. -/
theorem predict_pattern_characterization (db : List (Str × DomainRec)) (url : Str)
    (available : List Str)
    (hmiss : lookupAssoc db (targetDomain url) = none) :
    (∀ sd ∈ find_similar_domains db (targetDomain url),
      sd.2 = domain_similarity (targetDomain url) sd.1 ∧ 3/10 < sd.2 ∧
      ∃ rec, (sd.1, rec) ∈ db) ∧
    (∀ d : Str, ∀ rec : DomainRec, (d, rec) ∈ db →
      3/10 < domain_similarity (targetDomain url) d →
      (d, domain_similarity (targetDomain url) d) ∈ find_similar_domains db (targetDomain url)) ∧
    (find_similar_domains db (targetDomain url)).Pairwise (fun a b => b.2 ≤ a.2) ∧
    (predict_pattern db url available = none ↔
      find_similar_domains db (targetDomain url) = [] ∨
      ∀ sd ∈ (find_similar_domains db (targetDomain url)).take 5,
        ∀ rec, lookupAssoc db sd.1 = some rec → rec.pattern ∉ available) ∧
    (∀ p : Str, predict_pattern db url available = some p →
      p ∈ available ∧
      (∃ sd ∈ (find_similar_domains db (targetDomain url)).take 5,
        ∃ rec, lookupAssoc db sd.1 = some rec ∧ rec.pattern = p) ∧
      ∀ q : Str,
        weightedScore db ((find_similar_domains db (targetDomain url)).take 5) available q ≤
          weightedScore db ((find_similar_domains db (targetDomain url)).take 5) available p) := by
  have hmemS : ∀ sd ∈ find_similar_domains db (targetDomain url),
      sd.2 = domain_similarity (targetDomain url) sd.1 ∧ 3/10 < sd.2 ∧
      ∃ rec, (sd.1, rec) ∈ db := by
    intro sd hsd
    rw [find_similar_domains, mem_sortBySimDesc] at hsd
    rcases List.mem_filterMap.mp hsd with ⟨e, he, hfe⟩
    by_cases hfl : 3/10 < domain_similarity (targetDomain url) e.1
    · rw [if_pos hfl] at hfe
      obtain rfl : (e.1, domain_similarity (targetDomain url) e.1) = sd := by simpa using hfe
      exact ⟨rfl, hfl, ⟨e.2, by simpa using he⟩⟩
    · rw [if_neg hfl] at hfe
      exact absurd hfe (by simp)
  have htake : ∀ sd ∈ (find_similar_domains db (targetDomain url)).take 5,
      0 ≤ sd.2 := by
    intro sd hsd
    have h1 := (hmemS sd (List.take_subset 5 _ hsd)).2.1
    linarith
  refine ⟨hmemS, ?_, ?_, ?_, ?_⟩
  · intro d rec hdb hfl
    rw [find_similar_domains, mem_sortBySimDesc]
    exact List.mem_filterMap.mpr ⟨(d, rec), hdb, by rw [if_pos hfl]⟩
  · exact pairwise_sortBySimDesc _
  · simp only [predict_pattern, hmiss]
    by_cases hS : find_similar_domains db (targetDomain url) = []
    · simp [hS]
    · rw [if_neg hS]
      simp only [hS, false_or]
      rw [argmaxFirst_eq_none_iff]
      exact patternScores_eq_nil_iff db available _
  · intro p hp
    simp only [predict_pattern, hmiss] at hp
    by_cases hS : find_similar_domains db (targetDomain url) = []
    · rw [if_pos hS] at hp
      exact absurd hp (by simp)
    · rw [if_neg hS] at hp
      rcases argmaxFirst_spec hp with ⟨v, hpv, hmax⟩
      have hlk : lookupAssoc
          (patternScores db ((find_similar_domains db (targetDomain url)).take 5) available) p =
          some v :=
        lookup_of_mem_nodup (patternScores_keys_nodup db available _) hpv
      have hmaster := scoresFold_lookup db available
        ((find_similar_domains db (targetDomain url)).take 5) [] p
      rw [show List.foldl (scoreStep db available) []
          ((find_similar_domains db (targetDomain url)).take 5) =
          patternScores db ((find_similar_domains db (targetDomain url)).take 5) available
          from rfl] at hmaster
      have hcond : (lookupAssoc ([] : List (Str × ℚ)) p).isSome = true ∨
          ∃ sd ∈ (find_similar_domains db (targetDomain url)).take 5,
            bumpsTo db available sd p := by
        by_contra hc
        rw [hmaster.1 hc] at hlk
        exact absurd hlk (by simp)
      have hbump : ∃ sd ∈ (find_similar_domains db (targetDomain url)).take 5,
          bumpsTo db available sd p := by
        rcases hcond with h | h
        · exact absurd h (by simp [lookupAssoc])
        · exact h
      have hveq : v = weightedScore db
          ((find_similar_domains db (targetDomain url)).take 5) available p := by
        have := hmaster.2 hcond
        rw [hlk] at this
        have h2 : v = (lookupAssoc ([] : List (Str × ℚ)) p).getD 0 +
            weightedScore db ((find_similar_domains db (targetDomain url)).take 5) available p := by
          simpa using this
        simpa [lookupAssoc] using h2
      rcases hbump with ⟨sd0, hsd0, rec0, hrec0, hpat0, hav0⟩
      refine ⟨hpat0 ▸ hav0, ⟨sd0, hsd0, rec0, hrec0, hpat0⟩, ?_⟩
      intro q
      by_cases hq : ∃ sd ∈ (find_similar_domains db (targetDomain url)).take 5,
          bumpsTo db available sd q
      · have hmasterq := scoresFold_lookup db available
          ((find_similar_domains db (targetDomain url)).take 5) [] q
        have hlq := hmasterq.2 (Or.inr hq)
        have hwq : lookupAssoc
            (patternScores db ((find_similar_domains db (targetDomain url)).take 5) available) q =
            some (weightedScore db ((find_similar_domains db (targetDomain url)).take 5)
              available q) := by
          simpa [lookupAssoc] using hlq
        have hmem := mem_of_lookupAssoc hwq
        have := hmax _ hmem
        simpa [hveq] using this
      · have hzero : weightedScore db ((find_similar_domains db (targetDomain url)).take 5)
            available q = 0 := by
          unfold weightedScore
          apply List.sum_eq_zero
          intro a ha
          rcases List.mem_map.mp ha with ⟨sd, hsd, rfl⟩
          rcases hrec : lookupAssoc db sd.1 with _ | rec
          · simp
          · simp only [hrec]
            split
            · rename_i hcond2
              exact absurd ⟨rec, hrec, hcond2.1, hcond2.2⟩ (fun hb => hq ⟨sd, hsd, hb⟩)
            · rfl
        rw [hzero, ← hveq]
        have h0v : 0 ≤ weightedScore db
            ((find_similar_domains db (targetDomain url)).take 5) available p :=
          weightedScore_nonneg db _ available p htake
        rw [hveq]
        exact h0v

/-- A one-domain knowledge base for the C5 witness. -/
def dbDemo : List (Str × DomainRec) :=
  [(str "sunbeltnetwork.com",
    ⟨str "div|has_link|text:medium", 4, 37, str "2024-01-01", str "2024-06-01"⟩)]

/-- Witness for C5 at a concrete unseen domain. -/
theorem predict_pattern_characterization_witness :
    (find_similar_domains dbDemo
        (targetDomain (str "http://www.sunbeltnetwork.net/listings"))).Pairwise
      (fun a b => b.2 ≤ a.2) :=
  (predict_pattern_characterization dbDemo (str "http://www.sunbeltnetwork.net/listings")
    [str "div|has_link|text:medium"] (by decide)).2.2.1

/-! ## Knowledge-base success recording (`PatternDatabase.record_success`) -/

/-- The warning printed by `record_success`'s `except` handler (line 192). -/
def warnMsg (e : Str) : Str :=
  str "    Warning: Could not save pattern to Supabase: " ++ e

/-- In-place update of a dict entry (`self.patterns[domain][...] = ...`). -/
def updateRec (st : List (Str × DomainRec)) (domain : Str) (f : DomainRec → DomainRec) :
    List (Str × DomainRec) :=
  st.map (fun p => if p.1 = domain then (p.1, f p.2) else p)

/-- `PatternDatabase.record_success` (unified_broker_scraper_v2.py:160).
The two persistence calls (`upsert` into `scraper_patterns`, `insert` into
`scraper_history`) are external collaborators whose outcomes are passed in
as `Except` values; the `try` body translates to matching on them in call
order, and the bare `except` handler to returning the *unchanged* in-memory
state together with the printed warning.  On success the in-memory dict
gains a fresh zero-count record for an unseen domain and then increments
`success_count`/`total_listings` and refreshes `last_used`. -/
def record_success (st : List (Str × DomainRec)) (url sig : Str) (listings_count : Nat)
    (upsertRes insertRes : Except Str Unit) (now : Str) :
    (List (Str × DomainRec)) × List Str :=
  let domain := targetDomain url
  match upsertRes with
  | .error e => (st, [warnMsg e])
  | .ok _ =>
    match insertRes with
    | .error e => (st, [warnMsg e])
    | .ok _ =>
      let st1 := if lookupAssoc st domain = none
        then st ++ [(domain, ⟨sig, 0, 0, now, now⟩)] else st
      (updateRec st1 domain (fun r =>
        { r with success_count := r.success_count + 1,
                 total_listings := r.total_listings + listings_count,
                 last_used := now }), [])

/-- C9: a persistence failure in `record_success` never escapes: whichever
write fails (the pattern upsert or the history insert), the call returns
normally with the in-memory state unchanged and the warning logged, so a
telemetry write failure cannot abort a crawl. -/
theorem record_success_never_raises (st : List (Str × DomainRec)) (url sig : Str)
    (cnt : Nat) (now : Str) :
    (∀ e : Str, ∀ insertRes : Except Str Unit,
      record_success st url sig cnt (Except.error e) insertRes now = (st, [warnMsg e])) ∧
    (∀ e : Str,
      record_success st url sig cnt (Except.ok ()) (Except.error e) now = (st, [warnMsg e])) :=
  ⟨fun _ _ => rfl, fun _ => rfl⟩

/-! ## Listing normalization (`SelfLearningScraper.normalize_to_db_format`) -/

/-- Python `a or b` on two optional strings (`None`/`''` falsy). -/
def pyOrOpt (a b : Option Str) : Option Str :=
  match a with
  | some s => if s = [] then b else some s
  | none => b

/-- The database row built by `normalize_to_db_format` (lines 604-634). -/
structure NormalizedListing where
  id : Str
  vertical_slug : Str
  title : Option Str
  location : Option Str
  city : Option Str
  state : Option Str
  asking_price : Option ℚ
  price_text : Option Str
  cash_flow : Option ℚ
  ebitda : Option ℚ
  annual_revenue : Option ℚ
  description : Str
  image_url : Option Str
  listing_url : Option Str
  category_id : Option Nat
  business_type : Option Str
  broker_account : Str
  broker_source : Str
  broker_contact : Option Str
  broker_company : Option Str
  list_number : Option Str
  url_stub : Option Str
  region : Option Str
  status : Str
  hot_property : Bool
  recently_added : Bool
  recently_updated : Bool
  scraper_run_id : Option Str
  scraped_at : Str

/-- `SelfLearningScraper.normalize_to_db_format` (line 599).  The call to
`hashlib.md5(...).hexdigest()` is an external library call, embedded as the
function parameter `md5hex`; `lid_source` is
`listing.get('listing_url') or listing.get('url') or ''`. -/
def normalize_to_db_format (md5hex : Str → Str) (vertical_slug : Str)
    (scraper_run_id : Option Str) (now : Str) (listing : ListingDict)
    (broker_account : Str) : NormalizedListing :=
  let lid_source := pyOrStr listing.listing_url (pyOrStr listing.url [])
  { id := md5hex lid_source
    vertical_slug := vertical_slug
    title := listing.title
    location := listing.location
    city := listing.city
    state := listing.state
    asking_price := listing.price
    price_text := listing.price_text
    cash_flow := listing.cash_flow
    ebitda := none
    annual_revenue := listing.revenue
    description := pyOrStr listing.text (pyOrStr listing.description [])
    image_url := listing.image_url
    listing_url := pyOrOpt listing.listing_url listing.url
    category_id := none
    business_type := listing.business_type
    broker_account := broker_account
    broker_source := str "Broker Network"
    broker_contact := none
    broker_company := none
    list_number := none
    url_stub := none
    region := none
    status := str "pending"
    hot_property := false
    recently_added := true
    recently_updated := false
    scraper_run_id := scraper_run_id
    scraped_at := now }

/-- C3 counterexample: two listings with no URL but entirely different
content receive the *same* identifier — the hash of the empty string — so
the identifier is not a hash of any content-bearing composite key.
(`fun s => 'h' :: s` stands in for the injective hex digest.) -/
theorem normalized_id_counterexample :
    (normalize_to_db_format (fun s => 'h' :: s) (str "cleaning") none (str "t")
        { title := some (str "Alpha Cleaning") } (str "1")).id =
      (normalize_to_db_format (fun s => 'h' :: s) (str "cleaning") none (str "t")
        { title := some (str "Beta Maid Service"), state := some (str "TX") } (str "1")).id ∧
    (normalize_to_db_format (fun s => 'h' :: s) (str "cleaning") none (str "t")
        { title := some (str "Alpha Cleaning") } (str "1")).title ≠
      (normalize_to_db_format (fun s => 'h' :: s) (str "cleaning") none (str "t")
        { title := some (str "Beta Maid Service"), state := some (str "TX") } (str "1")).title := by
  decide

/-- C3 (amended): the derived identifier is the digest of
`listing_url or url or ''` — a deterministic function of the listing's URL
alone, hence stable across runs — and when both URL fields are absent or
empty it is the digest of the empty string, a constant shared by every
URL-less listing. -/
theorem normalized_id_deterministic (md5hex : Str → Str) (vs : Str) (rid : Option Str)
    (now : Str) (l : ListingDict) (acc : Str) :
    (normalize_to_db_format md5hex vs rid now l acc).id =
      md5hex (pyOrStr l.listing_url (pyOrStr l.url [])) ∧
    ((l.listing_url = none ∨ l.listing_url = some []) →
      (l.url = none ∨ l.url = some []) →
      (normalize_to_db_format md5hex vs rid now l acc).id = md5hex []) := by
  refine ⟨rfl, ?_⟩
  rintro (h1 | h1) (h2 | h2) <;>
    simp [normalize_to_db_format, pyOrStr, h1, h2]

/-- Witness for C3's amended theorem at a concrete URL-less listing. -/
theorem normalized_id_deterministic_witness :
    (normalize_to_db_format (fun s => 'h' :: s) (str "cleaning") none (str "t")
      { title := some (str "Alpha Cleaning") } (str "1")).id = 'h' :: [] :=
  (normalized_id_deterministic (fun s => 'h' :: s) (str "cleaning") none (str "t")
    { title := some (str "Alpha Cleaning") } (str "1")).2 (Or.inl rfl) (Or.inl rfl)

/-! ## Field extraction (`SmartExtractor`) and classification regexes -/

def isUpperC (c : Char) : Bool := 'A' ≤ c && c ≤ 'Z'
def isLowerC (c : Char) : Bool := 'a' ≤ c && c ≤ 'z'

/-- Python regex `\w` on the ASCII range. -/
def isWordC (c : Char) : Bool := c.isAlphanum || c = '_'

/-- `BUSINESS_HINTS` (unified_broker_scraper_v2.py:89). -/
def BUSINESS_HINTS : List Str :=
  [str "asking price", str "cash flow", str "revenue", str "business for sale",
   str "training", str "turnkey", str "profitable", str "route type", str "financing",
   str "route details", str "distribution", str "delivery route", str "route business",
   str "gross sales", str "net income", str "ebitda", str "asking", str "price",
   str "business opportunity", str "owner", str "operated", str "franchise",
   str "inventory", str "equipment", str "lease", str "real estate included",
   str "seller financing", str "terms available", str "business type",
   str "years in business", str "employees", str "customers", str "clientele",
   str "ff&e", str "fixtures", str "goodwill", str "for sale by owner",
   str "restaurant", str "retail", str "service", str "manufacturing",
   str "wholesale", str "distribution", str "franchise opportunity", str "absentee",
   str "semi-absentee", str "owner-operator"]

/-- `looks_businessy` (line 99). -/
def looks_businessy (text : Str) : Bool :=
  BUSINESS_HINTS.any (fun k => isSubstr k (lowerStr text))

/-- `mls\s*#` at the current (lower-cased) position. -/
def mlsAt (s : Str) : Bool :=
  isPrefixL (str "mls") s && ((s.drop 3).dropWhile pySpace).head? = some '#'

/-- `idx\b` at the current position. -/
def idxAt (s : Str) : Bool :=
  isPrefixL (str "idx") s &&
    (match (s.drop 3).head? with | some d => !isWordC d | none => true)

/-- `\d+\s*bath` at the current position. -/
def bathAt (s : Str) : Bool :=
  let ds := s.takeWhile Char.isDigit
  ds ≠ [] && isPrefixL (str "bath") ((s.drop ds.length).dropWhile pySpace)

/-- Scan for `\d+\s*bath` with the `.*`-segment unable to cross a newline. -/
def bathScan : Str → Bool
  | [] => false
  | s@(c :: rest) => bathAt s || (if c = '\n' then false else bathScan rest)

/-- `\d+\s*bed.*\d+\s*bath` at the current position. -/
def bedBathAt (s : Str) : Bool :=
  let ds := s.takeWhile Char.isDigit
  if ds = [] then false
  else
    let r := (s.drop ds.length).dropWhile pySpace
    if isPrefixL (str "bed") r then bathScan (r.drop 3) else false

def reRealEstateGo : Option Char → Str → Bool
  | prev, s@(c :: rest) =>
    (let boundary : Bool := match prev with | some p => !isWordC p | none => true
     (boundary && (mlsAt s || idxAt s)) || bedBathAt s) || reRealEstateGo (some c) rest
  | _, [] => false

/-- `RE_REAL_ESTATE.search` (line 88): `\bmls\s*#|\bidx\b|\d+\s*bed.*\d+\s*bath`
with `re.I`, modelled by scanning the lower-cased text. -/
def reRealEstate (s : Str) : Bool := reRealEstateGo none (lowerStr s)

/-- Simplified model of `urllib.parse.urljoin`: absolute references are
returned as-is, root-relative references are joined to the scheme+authority,
other references replace the last path segment.  Every concrete run below
uses absolute references only. -/
def urljoin (base h : Str) : Str :=
  if isSubstr (str "://") h then h
  else if isPrefixL (str "/") h then
    (match afterSubstr (str "://") base with
     | some rest =>
       base.take (base.length - rest.length) ++
         rest.takeWhile (fun c => c ≠ '/' ∧ c ≠ '?' ∧ c ≠ '#')
     | none => []) ++ h
  else (base.reverse.dropWhile (fun c => c ≠ '/')).reverse ++ h

/-- `re.split(r'[.!?]\s+', text)`: segments between punctuation-plus-space
separators (the separator is consumed).  Fueled worker: each step consumes
at least one character, so `s.length + 1` fuel suffices and the
out-of-fuel fallback is unreachable. -/
def splitSentencesAux : Nat → Str → Str → List Str
  | 0, s, cur => [cur.reverse ++ s]
  | _ + 1, [], cur => [cur.reverse]
  | fuel + 1, c :: rest, cur =>
    if (c = '.' || c = '!' || c = '?') &&
        (match rest.head? with | some d => pySpace d | none => false) then
      cur.reverse :: splitSentencesAux fuel (rest.dropWhile pySpace) []
    else splitSentencesAux fuel rest (c :: cur)

def splitSentences (s : Str) : List Str := splitSentencesAux (s.length + 1) s []

/-- `SmartExtractor._extract_title` (line 412): first heading-like
descendant with text length in (10, 200); else the first link text in that
range; else the first sentence-shaped segment in that range (stripped);
else the first 100 characters. -/
def extract_title (element : Element) (text : Str) : Str :=
  match [str "h1", str "h2", str "h3", str "h4", str "h5", str "h6",
      str "strong", str "b"].findSome? (fun tag =>
        match lookupAssoc element.findTagText tag with
        | some t => if 10 < t.length ∧ t.length < 200 then some t else none
        | none => none) with
  | some t => t
  | none =>
    let fallback :=
      match (splitSentences text).find? (fun s => decide (10 < s.length ∧ s.length < 200)) with
      | some s => pyStrip s
      | none => text.take 100
    match element.linkText with
    | some t => if 10 < t.length ∧ t.length < 200 then t else fallback
    | none => fallback

/-- `re.findall(r'\$[\d,]+(?:\.\d{2})?', text)`: non-overlapping matches,
left to right; the optional two-decimal suffix is taken when present. -/
def priceMatchesGo : Nat → Str → List Str
  | 0, _ => []
  | _ + 1, [] => []
  | fuel + 1, c :: rest =>
    if c = '$' then
      let run := rest.takeWhile (fun ch => ch.isDigit || ch = ',')
      if run = [] then priceMatchesGo fuel rest
      else
        let after := rest.drop run.length
        let dec : Str :=
          match after with
          | '.' :: d1 :: d2 :: _ => if d1.isDigit ∧ d2.isDigit then ['.', d1, d2] else []
          | _ => []
        ('$' :: (run ++ dec)) :: priceMatchesGo fuel (after.drop dec.length)
    else priceMatchesGo fuel rest

def priceMatches (s : Str) : List Str := priceMatchesGo s.length s

/-- `SmartExtractor._extract_price_text` (line 430): the dollar-amount match
with the largest numeric value (Python's `max` on `(float, str)` pairs:
ties on the value compare the match strings, and only a strictly greater
pair replaces the incumbent). -/
def extract_price_text (text : Str) : Option Str :=
  let ms := priceMatches text
  if ms ≠ [] then
    let vals := ms.filterMap (fun m =>
      (pyFloat (m.filter (fun c => c ≠ '$' ∧ c ≠ ','))).map (fun v => (v, m)))
    match vals with
    | [] => none
    | v :: vs =>
      some ((vs.foldl (fun best y =>
        if best.1 < y.1 ∨ (best.1 = y.1 ∧ strLt best.2 y.2) then y else best) v).2)
  else none

/-- `anchor[:\s]*\$?([\d,]+)` matched at the current position, returning the
captured digit/comma group. -/
def anchorNumAt (anchor : Str) (s : Str) : Option Str :=
  if isPrefixL anchor s then
    let r := (s.drop anchor.length).dropWhile (fun c => c = ':' || pySpace c)
    let r2 : Str := match r with | '$' :: t => t | t => t
    let run := r2.takeWhile (fun c => c.isDigit || c = ',')
    if run ≠ [] then some run else none
  else none

/-- `re.search` of an anchored financial pattern: leftmost match wins. -/
def anchorNumSearch (anchor : Str) : Str → Option Str
  | [] => none
  | s@(_ :: rest) =>
    match anchorNumAt anchor s with
    | some g => some g
    | none => anchorNumSearch anchor rest

/-- `SmartExtractor._extract_revenue` (line 444): first `REVENUE_PATTERNS`
match whose parsed value is truthy and above 10000. -/
def extract_revenue (text : Str) : Option ℚ :=
  let tl := lowerStr text
  [str "revenue", str "gross sales", str "annual sales", str "sales"].findSome?
    (fun anchor =>
      match anchorNumSearch anchor tl with
      | some g =>
        match parse_money_value g with
        | some v => if v ≠ 0 ∧ 10000 < v then some v else none
        | none => none
      | none => none)

/-- `SmartExtractor._extract_cashflow` (line 455). -/
def extract_cashflow (text : Str) : Option ℚ :=
  let tl := lowerStr text
  [str "cash flow", str "net income", str "ebitda", str "sde", str "owner benefit"].findSome?
    (fun anchor =>
      match anchorNumSearch anchor tl with
      | some g =>
        match parse_money_value g with
        | some v => if v ≠ 0 ∧ 1000 < v then some v else none
        | none => none
      | none => none)

/-- The `,\s*([A-Z]{2})\b` tail of the location regex, after a candidate
city group `acc`. -/
def cityComma (acc : Str) (rest : Str) : Option (Str × Str) :=
  match rest with
  | ',' :: r =>
    (match r.dropWhile pySpace with
     | a :: b :: tail =>
       if isUpperC a && isUpperC b &&
           (match tail.head? with | some d => !isWordC d | none => true) then
         some (acc, [a, b])
       else none
     | _ => none)
  | _ => none

/-- The greedy `(?:\s+[A-Z][a-z]+)*` loop of the location regex.  (The loop
and the following `,` start with disjoint characters, so the greedy strategy
needs no backtracking.) -/
def cityTail : Nat → Str → Str → Option (Str × Str)
  | 0, acc, rest => cityComma acc rest
  | fuel + 1, acc, rest =>
    let sp := rest.takeWhile pySpace
    let r2 := rest.drop sp.length
    if sp ≠ [] then
      match r2 with
      | c :: r3 =>
        if isUpperC c then
          let lows := r3.takeWhile isLowerC
          if lows ≠ [] then cityTail fuel (acc ++ sp ++ c :: lows) (r3.drop lows.length)
          else cityComma acc rest
        else cityComma acc rest
      | [] => cityComma acc rest
    else cityComma acc rest

/-- `\b([A-Z][a-z]+(?:\s+[A-Z][a-z]+)*),\s*([A-Z]{2})\b` matched at the
current position (the `\b` before it is checked by the caller). -/
def cityMatchAt (s : Str) : Option (Str × Str) :=
  match s with
  | c :: rest =>
    if isUpperC c then
      let lows := rest.takeWhile isLowerC
      if lows ≠ [] then cityTail s.length (c :: lows) (rest.drop lows.length)
      else none
    else none
  | [] => none

/-- Leftmost search for the city-state pattern, tracking the previous
character for the leading word boundary. -/
def cityStateGo : Option Char → Str → Option (Str × Str)
  | prev, s@(c :: rest) =>
    (if (match prev with | some p => !isWordC p | none => true) then cityMatchAt s
     else none).orElse (fun _ => cityStateGo (some c) rest)
  | _, [] => none

def cityStateSearch (s : Str) : Option (Str × Str) := cityStateGo none s

/-- `SmartExtractor._extract_location` (line 466): the first
`City Name(s), ST` match rendered as `f"{city}, {state}"`. -/
def extract_location (text : Str) : Option Str :=
  (cityStateSearch text).map (fun p => p.1 ++ str ", " ++ p.2)

/-- Leftmost `\b([A-Z]{2})\b` search. -/
def twoUpperGo : Option Char → Str → Option Str
  | prev, a :: b :: rest =>
    if (match prev with | some p => !isWordC p | none => true) && isUpperC a && isUpperC b &&
        (match rest.head? with | some d => !isWordC d | none => true) then
      some [a, b]
    else twoUpperGo (some a) (b :: rest)
  | _, _ => none

/-- `extract_city_state` (unified_broker_scraper_v2.py:117): the city-state
regex first, else a bare two-letter state code, else nothing. -/
def extract_city_state (location : Option Str) : Option Str × Option Str :=
  match location with
  | none => (none, none)
  | some loc =>
    if loc = [] then (none, none)
    else
      match cityStateSearch loc with
      | some p => (some (pyStrip p.1), some (pyStrip p.2))
      | none =>
        match twoUpperGo none loc with
        | some st => (none, some st)
        | none => (none, none)

/-- `SmartExtractor._extract_business_type` (line 471): first bucket in dict
order whose keyword occurs in the lower-cased text. -/
def extract_business_type (text : Str) : Option Str :=
  let t := lowerStr text
  if [str "restaurant", str "cafe", str "diner", str "bistro"].any (fun kw => isSubstr kw t) then
    some (str "restaurant")
  else if [str "bar", str "tavern", str "pub", str "lounge"].any (fun kw => isSubstr kw t) then
    some (str "bar")
  else if [str "store", str "shop", str "boutique"].any (fun kw => isSubstr kw t) then
    some (str "retail")
  else if [str "salon", str "spa", str "cleaning"].any (fun kw => isSubstr kw t) then
    some (str "service")
  else none

/-- `SmartExtractor.extract` (unified_broker_scraper_v2.py:374): reject when
the space-joined text is under 30 characters, when no `<a href>` is found on
the element or an ancestor, or when the resolved URL contains a skip marker;
otherwise assemble the listing dict.  (The `try/except` guards only DOM
library calls, which the `Element` observations make total.) -/
def extract (element : Element) (base_url : Str) : Option ListingDict :=
  let text := element.textSpace
  if text.length < 30 then none
  else
    match (match element.innerLink with
           | some h => some h
           | none => element.parentLink) with
    | none => none
    | some href =>
      let url := urljoin base_url href
      if [str "#", str "javascript:", str "/contact", str "/about"].any
          (fun skip => isSubstr skip (lowerStr url)) then none
      else
        let price_text := extract_price_text text
        some { title := some (extract_title element text)
               url := some url
               price := parseMoneyOpt price_text
               price_text := price_text
               location := extract_location text
               city := (extract_city_state (extract_location text)).1
               state := (extract_city_state (extract_location text)).2
               business_type := extract_business_type text
               revenue := extract_revenue text
               cash_flow := extract_cashflow text
               text := some (text.take 500)
               full_text := some text }

/-! ## Pagination crawler (`SelfLearningScraper.scrape_with_learning`) -/

/-- One fetched/rendered page: the element observations of its soup and the
`href` the next-page selectors of `_find_next_page` would resolve (if any).
The browser (`page.goto`/`page.content`) is the external collaborator
`world : Str → Option PageData`; `none` models a navigation failure
(`except: break`).  Redirects are not modelled: `page.url` is the URL
navigated to. -/
structure PageData where
  elements : List Element := []
  nextHref : Option Str := none

instance : Inhabited PageData := ⟨{}⟩

def stripFragment (u : Str) : Str := u.takeWhile (fun c => c ≠ '#')

/-- `urlparse(u).query` (text after the first `?`, before the fragment). -/
def urlQuery (u : Str) : Str :=
  match (stripFragment u).dropWhile (fun c => c ≠ '?') with
  | [] => []
  | _ :: r => r

/-- `urlparse(u).path` (after the authority, before query and fragment). -/
def urlPath (u : Str) : Str :=
  let rest := match afterSubstr (str "://") u with
    | some r => r.dropWhile (fun c => c ≠ '/' ∧ c ≠ '?' ∧ c ≠ '#')
    | none => u
  (stripFragment rest).takeWhile (fun c => c ≠ '?')

/-- Leftmost `page=(\d+)` match in a string, returning the digit group. -/
def findPageEqGo : Str → Option Str
  | [] => none
  | s@(_ :: rest) =>
    (if isPrefixL (str "page=") s then
      let run := (s.drop 5).takeWhile Char.isDigit
      if run ≠ [] then some run else none
     else none).orElse (fun _ => findPageEqGo rest)

/-- Leftmost `/page/(\d+)` match in a string, returning the digit group. -/
def findPageSegGo : Str → Option Str
  | [] => none
  | s@(_ :: rest) =>
    (if isPrefixL (str "/page/") s then
      let run := (s.drop 6).takeWhile Char.isDigit
      if run ≠ [] then some run else none
     else none).orElse (fun _ => findPageSegGo rest)

/-- The URL-arithmetic fallback of `_find_next_page` (lines 771-782):
increment a `page=N` query parameter or a `/page/N` path segment via
`str.replace` on the full URL. -/
def pageIncrement (current_url : Str) : Option Str :=
  let seg : Option Str :=
    if isSubstr (str "/page/") (urlPath current_url) then
      match findPageSegGo (urlPath current_url) with
      | some digits =>
        let cur := digitsVal digits
        some (replaceAll (str "/page/" ++ natToStr cur)
          (str "/page/" ++ natToStr (cur + 1)) current_url)
      | none => none
    else none
  if isSubstr (str "page=") (urlQuery current_url) then
    match findPageEqGo (urlQuery current_url) with
    | some digits =>
      let cur := digitsVal digits
      some (replaceAll (str "page=" ++ natToStr cur)
        (str "page=" ++ natToStr (cur + 1)) current_url)
    | none => seg
  else seg

/-- `SelfLearningScraper._find_next_page` (line 756): a selector hit joined
against the current URL, else the URL-arithmetic fallback. -/
def find_next_page (pd : PageData) (current_url : Str) : Option Str :=
  match pd.nextHref with
  | some h => some (urljoin current_url h)
  | none => pageIncrement current_url

/-- Run `SmartExtractor.extract` over a pattern's elements (lines 686-690 /
719-723). -/
def extractFromPattern (p : Pattern) (base : Str) : List ListingDict :=
  p.elements.filterMap (fun el => extract el base)

/-- The cached-pattern attempt (lines 681-694): find the pattern whose
signature equals the cached one; use it only when it extracts at least one
listing. -/
def tryCached (cachedPattern : Str) (patterns : List Pattern) (base : Str) :
    Option (Str × List ListingDict) :=
  match patterns.find? (fun p => decide (p.signature = cachedPattern)) with
  | some p =>
    if extractFromPattern p base ≠ [] then some (cachedPattern, extractFromPattern p base)
    else none
  | none => none

/-- `patterns.remove(p); patterns.insert(0, p)` for the first pattern with
the predicted signature (lines 710-714). -/
def moveToFront (sig : Str) (patterns : List Pattern) : List Pattern :=
  match splitAtSig sig patterns with
  | some t => t.2.1 :: (t.1 ++ t.2.2)
  | none => patterns
where
  splitAtSig (sig : Str) : List Pattern → Option (List Pattern × Pattern × List Pattern)
    | [] => none
    | p :: ps =>
      if p.signature = sig then some ([], p, ps)
      else (splitAtSig sig ps).map (fun t => (p :: t.1, t.2.1, t.2.2))

/-- `for i, pattern in enumerate(patterns[:3], 1): ...` (lines 716-729):
the first of the top three patterns that extracts a non-empty listing
list wins. -/
def tryPatterns (patterns : List Pattern) (base : Str) : Option (Str × List ListingDict) :=
  (patterns.take 3).findSome? (fun p =>
    if extractFromPattern p base ≠ [] then some (p.signature, extractFromPattern p base)
    else none)

/-- The per-page pattern-selection-and-extraction step of the crawl loop
(lines 675-732): the cached pattern on page one, else full detection with an
optional ML-predicted reorder on page one, trying the top three patterns.
`none` covers both the `if not patterns: break` and the
`if not pattern_used: break` exits, which leave the same loop state. -/
def pageAttempt (db : List (Str × DomainRec)) (url current : Str) (pages : Nat)
    (pd : PageData) : Option (Str × List ListingDict) :=
  match (match lookupAssoc db (targetDomain url), pages with
         | some c, 0 => tryCached c.pattern (find_patterns pd.elements) current
         | _, _ => none) with
  | some r => some r
  | none =>
    if find_patterns pd.elements = [] then none
    else
      tryPatterns
        (if pages = 0 then
          match predict_pattern db url ((find_patterns pd.elements).map Pattern.signature) with
          | some pr => moveToFront pr (find_patterns pd.elements)
          | none => find_patterns pd.elements
         else find_patterns pd.elements) current

/-- The final loop state of `scrape_with_learning`: the accumulated
listings, the `pattern_used` variable's value from the last executed
iteration, `pages_scraped`, and `consecutive_empty`. -/
structure CrawlResult where
  all_listings : List ListingDict
  pattern_used : Option Str
  pages_scraped : Nat
  consecutive_empty : Nat

/-- The `while pages_scraped < max_pages` loop of `scrape_with_learning`
(lines 650-749), with `fuel = max_pages - pages_scraped` (the loop guard):
visited-URL check, fetch (page one reuses the already-loaded `pd0`),
pattern attempt, the consecutive-empty bookkeeping, page-count increment,
and next-page resolution. -/
def scrapeLoop (world : Str → Option PageData) (pd0 : PageData) (url : Str)
    (db : List (Str × DomainRec)) :
    Nat → Str → List Str → List ListingDict → Nat → Nat → Option Str → CrawlResult
  | 0, _, _, all, pages, consec, lastPat => ⟨all, lastPat, pages, consec⟩
  | fuel + 1, current, visited, all, pages, consec, lastPat =>
    if current ∈ visited then ⟨all, lastPat, pages, consec⟩
    else
      match (if pages = 0 then some pd0 else world current) with
      | none => ⟨all, lastPat, pages, consec⟩
      | some pd =>
        match pageAttempt db url current pages pd with
        | none => ⟨all, none, pages, consec⟩
        | some r =>
          let all2 := all ++ r.2
          let found := all2.length - all.length
          if found = 0 ∧ 3 ≤ consec + 1 then ⟨all2, some r.1, pages, consec + 1⟩
          else
            let consec2 := if found = 0 then consec + 1 else 0
            match find_next_page pd current with
            | none => ⟨all2, some r.1, pages + 1, consec2⟩
            | some nu =>
              scrapeLoop world pd0 url db fuel nu (current :: visited) all2 (pages + 1)
                consec2 (some r.1)

/-- `SelfLearningScraper.scrape_with_learning` (line 642): run the loop with
`max_pages = 100` and return `(all_listings, pattern_used)`. -/
def scrape_with_learning (world : Str → Option PageData) (pd0 : PageData) (url : Str)
    (db : List (Str × DomainRec)) : List ListingDict × Option Str :=
  let r := scrapeLoop world pd0 url db 100 url [] [] 0 0 none
  (r.all_listings, r.pattern_used)

/-! ## Per-broker listing filtering (`SelfLearningScraper.scrape_broker`,
lines 836-869) -/

/-- `text = listing.get('full_text') or listing.get('text') or ''`. -/
def listingText (l : ListingDict) : Str := pyOrStr l.full_text (pyOrStr l.text [])

/-- `pattern_used = bool(pattern_sig)`: truthiness of the returned
signature. -/
def psigTruthy (psig : Option Str) : Bool :=
  match psig with
  | some s => s ≠ []
  | none => false

/-- The include decision of lines 842-848: with a truthy pattern signature,
reject exactly the real-estate matches; otherwise require a price-shaped
substring or a business hint.  (`PRICE_RE.search` is boolean-equivalent to
the `has_price` test `hasPriceRe`: both fire iff a `$` is immediately
followed by a digit or comma.) -/
def includeFilter (pattern_used : Bool) (text : Str) : Bool :=
  if pattern_used then !reRealEstate text
  else hasPriceRe text || looks_businessy text

/-- The per-listing loop of `scrape_broker` (lines 839-869): include check,
vertical filter, normalization, and dedup against `seen_ids`; returns the
records appended to `all_listings` and the grown seen-set. -/
def processListings (md5hex : Str → Str) (cfg : VerticalConfig) (vs : Str)
    (rid : Option Str) (now : Str) (account : Str) (psig : Option Str) :
    List ListingDict → List Str → List NormalizedListing × List Str
  | [], seen => ([], seen)
  | l :: rest, seen =>
    if !includeFilter (psigTruthy psig) (listingText l) then
      processListings md5hex cfg vs rid now account psig rest seen
    else if !matches_vertical cfg l then
      processListings md5hex cfg vs rid now account psig rest seen
    else
      let normalized := normalize_to_db_format md5hex vs rid now l account
      if normalized.id ∈ seen then
        processListings md5hex cfg vs rid now account psig rest seen
      else
        let r := processListings md5hex cfg vs rid now account psig rest (normalized.id :: seen)
        (normalized :: r.1, r.2)

/-- The HTML path of `scrape_broker` (no downloadable-file links on the
page): crawl with `scrape_with_learning`, then filter, normalize and dedup
the extracted listings. -/
def scrapeBrokerHtml (md5hex : Str → Str) (world : Str → Option PageData) (pd0 : PageData)
    (url : Str) (db : List (Str × DomainRec)) (cfg : VerticalConfig) (vs : Str)
    (rid : Option Str) (now : Str) (account : Str) (seen : List Str) :
    List NormalizedListing × List Str :=
  let r := scrape_with_learning world pd0 url db
  processListings md5hex cfg vs rid now account r.2 r.1 seen

lemma tryCached_snd_ne_nil {c : Str} {patterns : List Pattern} {base : Str}
    {r : Str × List ListingDict} (h : tryCached c patterns base = some r) : r.2 ≠ [] := by
  unfold tryCached at h
  split at h
  · split at h
    · obtain rfl : (c, extractFromPattern _ base) = r := by simpa using h
      assumption
    · exact absurd h (by simp)
  · exact absurd h (by simp)

lemma tryPatterns_snd_ne_nil {patterns : List Pattern} {base : Str}
    {r : Str × List ListingDict} (h : tryPatterns patterns base = some r) : r.2 ≠ [] := by
  unfold tryPatterns at h
  rcases List.exists_of_findSome?_eq_some h with ⟨p, -, hp⟩
  split at hp
  · obtain rfl : (p.signature, extractFromPattern p base) = r := by simpa using hp
    assumption
  · exact absurd hp (by simp)

lemma pageAttempt_snd_ne_nil {db : List (Str × DomainRec)} {url current : Str} {pages : Nat}
    {pd : PageData} {r : Str × List ListingDict}
    (h : pageAttempt db url current pages pd = some r) : r.2 ≠ [] := by
  unfold pageAttempt at h
  split at h
  · rename_i r' heq
    obtain rfl : r' = r := by simpa using h
    split at heq
    · exact tryCached_snd_ne_nil heq
    · exact absurd heq (by simp)
  · split at h
    · exact absurd h (by simp)
    · exact tryPatterns_snd_ne_nil h

lemma scrapeLoop_consec_zero (world : Str → Option PageData) (pd0 : PageData) (url : Str)
    (db : List (Str × DomainRec)) :
    ∀ (fuel : Nat) (cur : Str) (vis : List Str) (all : List ListingDict) (pages : Nat)
      (lastPat : Option Str),
    (scrapeLoop world pd0 url db fuel cur vis all pages 0 lastPat).consecutive_empty = 0 := by
  intro fuel
  induction fuel with
  | zero => intros; rfl
  | succ n ih =>
    intro cur vis all pages lastPat
    rw [scrapeLoop]
    split
    · rfl
    · split
      · rfl
      · rename_i pd hpd
        rcases hatt : pageAttempt db url cur pages pd with _ | r
        · simp [hatt]
        · have hne : r.2 ≠ [] := pageAttempt_snd_ne_nil hatt
          have hfound : (all ++ r.2).length - all.length ≠ 0 := by
            simp only [List.length_append]
            have : 0 < r.2.length := List.length_pos.mpr hne
            omega
          simp only [hatt]
          rw [if_neg (fun hc => hfound hc.1)]
          simp only [if_neg hfound]
          split
          · rfl
          · exact ih _ _ _ _ _

/-! ## C1: the consecutive-empty stopping rule -/

/-- A synthetic source: every page shows the same three identical listing
cards (hence the same single extracted listing, repeated), and each page
links to a next page until the URL grows past a bound. -/
def synthUrl : Str := str "http://x/p"

def synthWorld (u : Str) : Option PageData :=
  some { elements := [cardEl, cardEl, cardEl],
         nextHref := if u.length < 19 then some (u ++ ['x']) else none }

def synthPd0 : PageData :=
  { elements := [cardEl, cardEl, cardEl], nextHref := some (synthUrl ++ ['x']) }

/-- **C1.** The three-consecutive-empty-pages stopping rule is dead code:
starting from `consecutive_empty = 0` (as `scrape_with_learning` does), the
counter is still `0` in the final state of every crawl, whatever the source
- so the rule never fires.  (A page that extracts nothing leaves
`pattern_used` unset and the crawl breaks immediately through the
no-pattern exit, and no deduplication happens inside the loop, so a page of
already-seen listings still counts as non-empty.)  In particular, on a
synthetic source returning the same listings on every page the crawler does
not stop after 3 extra pages: it crawls all 10 reachable pages and returns
the duplicated listings 10 times over. -/
theorem pagination_empty_rule_dead :
    (∀ (world : Str → Option PageData) (pd0 : PageData) (url : Str)
       (db : List (Str × DomainRec)) (fuel : Nat) (cur : Str) (vis : List Str)
       (all : List ListingDict) (pages : Nat) (lastPat : Option Str),
      (scrapeLoop world pd0 url db fuel cur vis all pages 0 lastPat).consecutive_empty = 0) ∧
    (scrapeLoop synthWorld synthPd0 synthUrl [] 100 synthUrl [] [] 0 0 none).pages_scraped
      = 10 ∧
    (scrape_with_learning synthWorld synthPd0 synthUrl []).1.length = 30 :=
  ⟨fun world pd0 url db fuel cur vis all pages lastPat =>
    scrapeLoop_consec_zero world pd0 url db fuel cur vis all pages lastPat, rfl, rfl⟩

/-! ## C8: the real-estate exclusion in the final filter -/

/-- **C8 (amended).** When the crawl returns a truthy pattern signature,
the real-estate exclusion is absolute: every record in the final listing
set comes from a scraped listing whose combined text does NOT match the
MLS / bed-bath real-estate regex - a real-estate-flavored listing is
excluded regardless of its other signals (price, business hints, vertical
keywords).  The claim's unconditional reading is corrected by the truthy-
signature proviso: with a falsy signature the price/business-hint test
applies instead and a real-estate listing can be retained
(`real_estate_leak_counterexample`). -/
theorem real_estate_exclusion (md5hex : Str → Str) (cfg : VerticalConfig) (vs : Str)
    (rid : Option Str) (now : Str) (account : Str) (psig : Option Str)
    (listings : List ListingDict) (seen : List Str)
    (hsig : psigTruthy psig = true) :
    ∀ n ∈ (processListings md5hex cfg vs rid now account psig listings seen).1,
      ∃ l ∈ listings, reRealEstate (listingText l) = false ∧
        n = normalize_to_db_format md5hex vs rid now l account := by
  induction listings generalizing seen with
  | nil => intro n hn; simp [processListings] at hn
  | cons l rest ih =>
    intro n hn
    simp only [processListings] at hn
    by_cases hre : reRealEstate (listingText l) = true
    · rw [if_pos (by simp [includeFilter, hsig, hre])] at hn
      rcases ih _ _ hn with ⟨l', hl', h1, h2⟩
      exact ⟨l', List.mem_cons_of_mem _ hl', h1, h2⟩
    · rw [if_neg (by simp [includeFilter, hsig, hre])] at hn
      by_cases hmv : matches_vertical cfg l = true
      · rw [if_neg (by simp [hmv])] at hn
        by_cases hseen :
            (normalize_to_db_format md5hex vs rid now l account).id ∈ seen
        · rw [if_pos hseen] at hn
          rcases ih _ _ hn with ⟨l', hl', h1, h2⟩
          exact ⟨l', List.mem_cons_of_mem _ hl', h1, h2⟩
        · rw [if_neg hseen] at hn
          rcases List.mem_cons.mp hn with h | h
          · exact ⟨l, List.mem_cons_self l rest,
              Bool.eq_false_iff.mpr hre, h⟩
          · rcases ih _ _ h with ⟨l', hl', h1, h2⟩
            exact ⟨l', List.mem_cons_of_mem _ hl', h1, h2⟩
      · rw [if_pos (by simp [hmv])] at hn
        rcases ih _ _ hn with ⟨l', hl', h1, h2⟩
        exact ⟨l', List.mem_cons_of_mem _ hl', h1, h2⟩

/-- A listing card whose text matches the bed/bath real-estate pattern AND
carries a price and the vertical keyword "cleaning". -/
def reText : Str := str "3 bed 2 bath home cleaning business for sale $500,000 great"

def reCard : Element :=
  { name := str "div", depth := 5, innerLink := some (str "http://x/l"),
    textStrip := reText, textSpace := reText, textFull := reText }

/-- First page: three real-estate cards and a next link; the second page is
empty, so the crawl breaks through the no-pattern exit with
`pattern_used = None` even though listings were already extracted. -/
def rePd0 : PageData :=
  { elements := [reCard, reCard, reCard], nextHref := some (str "http://x/q") }

def reWorld (_ : Str) : Option PageData := some {}

/-- **C8, counterexample to the unconditional reading.** On this source the
crawl returns a falsy pattern signature (the last iteration broke before
setting one), the extracted listing's combined text matches the real-estate
regex, and yet `scrape_broker`'s filter keeps it: the final listing set is
the (deduplicated) real-estate record - the exclusion never ran because it
is guarded by `if pattern_used`. -/
theorem real_estate_leak_counterexample :
    psigTruthy (scrape_with_learning reWorld rePd0 (str "http://x/p") []).2 = false ∧
    reRealEstate (listingText
      ((scrape_with_learning reWorld rePd0 (str "http://x/p") []).1.headI)) = true ∧
    ((scrapeBrokerHtml (fun s => s) reWorld rePd0 (str "http://x/p") [] cleaningConfig
        (str "cleaning") none (str "T") (str "acct") []).1.map
      NormalizedListing.id) = [str "http://x/l"] := by
  refine ⟨rfl, by decide, by decide⟩

/-- A scraped listing whose text matches the real-estate regex. -/
def reListing : ListingDict := { full_text := some (str "3 bed 2 bath home for sale") }

/-- Witness for C8: with a truthy signature, a real-estate listing is
excluded - the filter output on `[reListing]` is empty. -/
theorem real_estate_exclusion_witness :
    psigTruthy (some (str "s")) = true ∧
    (processListings (fun s => s) cleaningConfig (str "cleaning") none (str "T")
      (str "acct") (some (str "s")) [reListing] []).1 = [] := by
  refine ⟨by decide, List.eq_nil_iff_forall_not_mem.mpr (fun n hn => ?_)⟩
  rcases real_estate_exclusion (fun s => s) cleaningConfig (str "cleaning") none (str "T")
      (str "acct") (some (str "s")) [reListing] [] (by decide) n hn with ⟨l, hl, hre, -⟩
  rw [List.mem_singleton.mp hl] at hre
  exact absurd hre (by decide)
